import Mathlib

/-!
Verification development for the spotify-search repository.

The definitions below are a shallow embedding of the Python sources:

* `SpotifyDatabase` and its operations embed `src/database.py` (a TinyDB-backed
  store; each TinyDB table is modelled as a list of typed records in document
  order, `search`/`get`/`update`/`insert`/`remove` as the corresponding list
  operations).
* `SpotifyClient.extract_track_data` and `SpotifyClient.get_playlist_tracks`
  embed the pure data transformation parts of `src/spotify_client.py`; remote
  JSON objects are modelled with `Option` fields (`none` = key absent or null,
  which are equivalent for the `.get`-based accesses the code performs).
* `sync_diff_step` / `sync_full_step` embed the per-playlist bodies of the
  `sync_diff` and `sync` commands of `src/cli.py`, producing the resulting
  database together with a trace of the remote fetches and store writes.
-/

/-- A stored track document, with exactly the keys built by
`SpotifyClient.extract_track_data` in `src/spotify_client.py`. -/
structure Track where
  id : String
  name : String
  artist : String
  album : String
  duration_ms : Nat
  popularity : Nat
  explicit : Bool
  uri : String
  external_url : String
  preview_url : String
  release_date : String
  is_local : Bool
  deriving DecidableEq, Repr

/-- A stored playlist document, with the keys built by
`SpotifyClient.get_user_playlists`.  `snapshot_id` is the one key that call
sites may strip before storing (`pl_no_snap.pop('snapshot_id', None)` in
`src/cli.py`), so it is modelled as `Option String`, `none` meaning the
document has no `snapshot_id` key. -/
structure Playlist where
  id : String
  name : String
  description : String
  owner : String
  public : Bool
  collaborative : Bool
  tracks_total : Nat
  snapshot_id : Option String
  uri : String
  external_url : String
  deriving DecidableEq, Repr

/-- A playlist dictionary as returned by `SpotifyClient.get_user_playlists`:
here the `snapshot_id` key is always present (`item.get("snapshot_id", "")`),
possibly the empty string. -/
structure RemotePlaylist where
  id : String
  name : String
  description : String
  owner : String
  public : Bool
  collaborative : Bool
  tracks_total : Nat
  snapshot_id : String
  uri : String
  external_url : String
  deriving DecidableEq, Repr

/-- A row of the `playlist_tracks` relationship table
(`{"playlist_id": ..., "track_id": ..., "position": ...}`). -/
structure PlaylistTrackRow where
  playlist_id : String
  track_id : String
  position : Nat
  deriving DecidableEq, Repr

/-- A row of the `saved_tracks` table
(`{"track_id": ..., "added_at": ...}`). -/
structure SavedTrackRow where
  track_id : String
  added_at : String
  deriving DecidableEq, Repr

/-- The four TinyDB tables of `SpotifyDatabase.__init__`, each as a list of
documents in document-id (= insertion) order. -/
structure SpotifyDatabase where
  tracks : List Track
  playlists : List Playlist
  playlist_tracks : List PlaylistTrackRow
  saved_tracks : List SavedTrackRow
  deriving DecidableEq, Repr

/-- `clear_all`: truncate all four tables. -/
def SpotifyDatabase.clear_all (_db : SpotifyDatabase) : SpotifyDatabase :=
  { tracks := [], playlists := [], playlist_tracks := [], saved_tracks := [] }

/-- `get_playlist_track_count`: number of relationship rows for a playlist
(`len(self.playlist_tracks.search(PlaylistTrack.playlist_id == playlist_id))`). -/
def SpotifyDatabase.get_playlist_track_count (db : SpotifyDatabase)
    (playlist_id : String) : Nat :=
  (db.playlist_tracks.filter (fun r => r.playlist_id == playlist_id)).length

/-- `clear_playlist_tracks`: `self.playlist_tracks.remove(... == playlist_id)`;
TinyDB removes every matching document and keeps the rest in order. -/
def SpotifyDatabase.clear_playlist_tracks (db : SpotifyDatabase)
    (playlist_id : String) : SpotifyDatabase :=
  { db with playlist_tracks :=
      db.playlist_tracks.filter (fun r => !(r.playlist_id == playlist_id)) }

/-- `get_saved_tracks_count`: `len(self.saved_tracks)`. -/
def SpotifyDatabase.get_saved_tracks_count (db : SpotifyDatabase) : Nat :=
  db.saved_tracks.length

/-- `clear_saved_tracks`: truncate the saved-tracks table. -/
def SpotifyDatabase.clear_saved_tracks (db : SpotifyDatabase) : SpotifyDatabase :=
  { db with saved_tracks := [] }

/-- `get_track`: `self.tracks.get(Track.id == track_id)`; TinyDB `get` returns
the first matching document or `None`. -/
def SpotifyDatabase.get_track (db : SpotifyDatabase) (track_id : String) :
    Option Track :=
  db.tracks.find? (fun t => t.id == track_id)

/-- `insert_track`: if a document with the same id exists, TinyDB
`update(track_data, Track.id == ...)` merges the payload into every matching
document; since the payload carries every key of a track document this is a
full overwrite.  Otherwise the document is appended. -/
def SpotifyDatabase.insert_track (db : SpotifyDatabase) (track_data : Track) :
    SpotifyDatabase :=
  if db.tracks.any (fun t => t.id == track_data.id) then
    { db with tracks :=
        db.tracks.map (fun t => if t.id == track_data.id then track_data else t) }
  else
    { db with tracks := db.tracks ++ [track_data] }

/-- `get_playlist`: first playlist document with the given id, or `None`. -/
def SpotifyDatabase.get_playlist (db : SpotifyDatabase) (playlist_id : String) :
    Option Playlist :=
  db.playlists.find? (fun p => p.id == playlist_id)

/-- TinyDB dict-merge semantics of `update(playlist_data, ...)`: every key
present in the payload overwrites the stored value; `snapshot_id` is the one
key the call sites may omit (modelled by `none`), in which case the stored
value is kept. -/
def mergePlaylistDoc (existing : Playlist) (playlist_data : Playlist) : Playlist :=
  { playlist_data with snapshot_id :=
      match playlist_data.snapshot_id with
      | some s => some s
      | none => existing.snapshot_id }

/-- `insert_playlist`: update every document with the same id (dict merge), or
append if absent. -/
def SpotifyDatabase.insert_playlist (db : SpotifyDatabase)
    (playlist_data : Playlist) : SpotifyDatabase :=
  if db.playlists.any (fun p => p.id == playlist_data.id) then
    { db with playlists := db.playlists.map (fun p =>
        if p.id == playlist_data.id then mergePlaylistDoc p playlist_data else p) }
  else
    { db with playlists := db.playlists ++ [playlist_data] }

/-- `set_playlist_snapshot`: `update({"snapshot_id": snapshot_id}, Playlist.id
== playlist_id)` — a dict merge that touches only the `snapshot_id` key of
every matching document. -/
def SpotifyDatabase.set_playlist_snapshot (db : SpotifyDatabase)
    (playlist_id snapshot_id : String) : SpotifyDatabase :=
  { db with playlists := db.playlists.map (fun p =>
      if p.id == playlist_id then { p with snapshot_id := some snapshot_id } else p) }

/-- `add_track_to_playlist`: insert the (playlist, track, position) row only if
that exact combination does not already exist. -/
def SpotifyDatabase.add_track_to_playlist (db : SpotifyDatabase)
    (playlist_id track_id : String) (position : Nat) : SpotifyDatabase :=
  match db.playlist_tracks.find? (fun r =>
      r.playlist_id == playlist_id && r.track_id == track_id &&
        r.position == position) with
  | some _ => db
  | none =>
    { db with playlist_tracks :=
        db.playlist_tracks ++ [⟨playlist_id, track_id, position⟩] }

/-- The comparison used by `relationships.sort(key=lambda x: x["position"])`. -/
def posLe (a b : PlaylistTrackRow) : Prop := a.position ≤ b.position

instance : DecidableRel posLe := fun a b =>
  inferInstanceAs (Decidable (a.position ≤ b.position))

instance : IsTotal PlaylistTrackRow posLe :=
  ⟨fun a b => Nat.le_total a.position b.position⟩

instance : IsTrans PlaylistTrackRow posLe :=
  ⟨fun _ _ _ h1 h2 => Nat.le_trans h1 h2⟩

/-- `get_playlist_tracks`: select the playlist's relationship rows, sort them
by position (Python `list.sort` is a stable ascending sort, modelled by the
stable `insertionSort`), then look every track up and keep only the ones that
exist (`if track: tracks.append(track)`). -/
def SpotifyDatabase.get_playlist_tracks (db : SpotifyDatabase)
    (playlist_id : String) : List Track :=
  let relationships := db.playlist_tracks.filter
    (fun r => r.playlist_id == playlist_id)
  let sorted := relationships.insertionSort posLe
  sorted.filterMap (fun rel => db.get_track rel.track_id)

/-- An element of the list built by `get_playlists_for_track`.  The Python code
returns heterogeneous dicts: either a copy of a playlist document extended
with a `positions` list, or the fixed synthetic liked-songs pseudo-playlist
`{"name": "❤️ Liked Songs", "id": "__saved_tracks__", "owner": "You",
"public": False, "positions": []}`. -/
inductive TrackPlaylistEntry where
  | pl (playlist : Playlist) (positions : List Nat)
  | likedSongs
  deriving DecidableEq, Repr

/-- The `p.get("name", "")` access used as the sort key of
`get_playlists_for_track` (both dict shapes carry a name). -/
def entryName : TrackPlaylistEntry → String
  | .pl p _ => p.name
  | .likedSongs => "❤️ Liked Songs"

/-- The comparison of `enriched.sort(key=lambda p: p.get("name", "").lower())`. -/
def entryKeyLe (a b : TrackPlaylistEntry) : Prop :=
  (entryName a).toLower ≤ (entryName b).toLower

instance : DecidableRel entryKeyLe := fun a b =>
  inferInstanceAs (Decidable ((entryName a).toLower ≤ (entryName b).toLower))

instance : IsTotal TrackPlaylistEntry entryKeyLe :=
  ⟨fun a b => le_total (entryName a).toLower (entryName b).toLower⟩

instance : IsTrans TrackPlaylistEntry entryKeyLe :=
  ⟨fun _ _ _ h1 h2 => le_trans h1 h2⟩

/-- One step of the `positions_per_playlist` dict building loop: Python dicts
keep first-insertion key order, and `positions_per_playlist[pid].append(pos)`
appends at the end of the existing value. -/
def upsertAppend (m : List (String × List Nat)) (playlist_id : String)
    (position : Nat) : List (String × List Nat) :=
  match m with
  | [] => [(playlist_id, [position])]
  | kv :: rest =>
    if kv.1 == playlist_id then (kv.1, kv.2 ++ [position]) :: rest
    else kv :: upsertAppend rest playlist_id position

/-- `get_playlists_for_track`: group the track's relationship rows by playlist
id (insertion-ordered dict), drop groups whose playlist document no longer
exists, sort each group's positions ascending, append the synthetic
liked-songs entry when the track has a saved marker, and sort the result
case-insensitively by name. -/
def SpotifyDatabase.get_playlists_for_track (db : SpotifyDatabase)
    (track_id : String) : List TrackPlaylistEntry :=
  let relationships := db.playlist_tracks.filter (fun r => r.track_id == track_id)
  let positions_per_playlist := relationships.foldl
    (fun m rel => upsertAppend m rel.playlist_id rel.position) []
  let enriched := positions_per_playlist.filterMap (fun kv =>
    (db.get_playlist kv.1).map (fun pl =>
      TrackPlaylistEntry.pl pl (kv.2.insertionSort (· ≤ ·))))
  let enriched :=
    if db.saved_tracks.any (fun s => s.track_id == track_id) then
      enriched ++ [TrackPlaylistEntry.likedSongs]
    else enriched
  enriched.insertionSort entryKeyLe

/-- `add_saved_track`: insert `{"track_id": ..., "added_at": ...}` only if no
saved row for this track id exists yet. -/
def SpotifyDatabase.add_saved_track (db : SpotifyDatabase)
    (track_id added_at : String) : SpotifyDatabase :=
  match db.saved_tracks.find? (fun s => s.track_id == track_id) with
  | some _ => db
  | none => { db with saved_tracks := db.saved_tracks ++ [⟨track_id, added_at⟩] }

/-- A remote artist object (`a.get("name")`). -/
structure RawArtist where
  name : Option String
  deriving DecidableEq, Repr

/-- A remote album object (`album_obj.get("name")`, `.get("release_date", "")`). -/
structure RawAlbum where
  name : Option String
  release_date : Option String
  deriving DecidableEq, Repr

/-- The `external_urls` object (`.get("spotify", "")`). -/
structure RawExternalUrls where
  spotify : Option String
  deriving DecidableEq, Repr

/-- A remote track object as consumed by `extract_track_data`.  Each field is
an `Option`, `none` modelling an absent or null key (the code reads every one
of them with `.get`, treating the two alike).  `duration_ms` is the remote
track length in milliseconds, a count (the Spotify schema's non-negative
integer). -/
structure RawTrack where
  id : Option String
  name : Option String
  artists : Option (List (Option RawArtist))
  album : Option RawAlbum
  duration_ms : Option Nat
  popularity : Option Nat
  explicit : Option Bool
  uri : Option String
  external_urls : Option RawExternalUrls
  preview_url : Option String
  is_local : Option Bool
  deriving DecidableEq, Repr

/-- Model of the external standard-library digest
`hashlib.md5(unique_str.encode()).hexdigest()` used for local tracks with a
missing id.  The claims depend only on it being a deterministic pure function
of its input string, so the library's compression function is modelled by an
executable stand-in hash rendered in hex rather than reproduced bit for bit. -/
def md5hex (s : String) : String :=
  let h := s.toUTF8.toList.foldl
    (fun h b => (h * 131 + b.toNat) % (2 ^ 128)) 5381
  (Nat.toDigits 16 h).asString

/-- The artist-name list comprehension of `extract_track_data`:
`[a.get("name") for a in artists if a and a.get("name")]` — falsy (null or
empty) artist objects and names are filtered out. -/
def artistNames (t : RawTrack) : List String :=
  (t.artists.getD []).filterMap (fun a? =>
    match a? with
    | some a =>
      match a.name with
      | some n => if n == "" then none else some n
      | none => none
    | none => none)

/-- `extract_track_data(track, is_local_item)`: `none` input models a falsy
track object (`if not track: return None`).  Python truthiness makes the
empty string behave like an absent value in `track.get("id")`,
`track.get("name") or ""` and the other `or`-defaulted reads, which the
branches below reproduce. -/
def SpotifyClient.extract_track_data (track : Option RawTrack)
    (is_local_item : Bool) : Option Track :=
  match track with
  | none => none
  | some t =>
    let artist_names := artistNames t
    let artist_str :=
      if artist_names.isEmpty then "Unknown Artist"
      else String.intercalate ", " artist_names
    let album_name := match t.album with
      | some al => al.name.getD ""
      | none => ""
    let release_date := match t.album with
      | some al => al.release_date.getD ""
      | none => ""
    let track_id := match t.id with
      | some i =>
        if i == "" then md5hex ((t.uri.getD "") ++ ":" ++ (t.name.getD ""))
        else i
      | none => md5hex ((t.uri.getD "") ++ ":" ++ (t.name.getD ""))
    let external_url := match t.external_urls with
      | some u => u.spotify.getD ""
      | none => ""
    some {
      id := track_id
      name := t.name.getD ""
      artist := artist_str
      album := album_name
      duration_ms := t.duration_ms.getD 0
      popularity := t.popularity.getD 0
      explicit := t.explicit.getD false
      uri := t.uri.getD ""
      external_url := external_url
      preview_url := t.preview_url.getD ""
      release_date := release_date
      is_local := is_local_item || t.is_local.getD false }

/-- An element of a `playlist_tracks` API page:
`items(is_local, track(...))`. -/
structure PlaylistItem where
  is_local : Option Bool
  track : Option RawTrack
  deriving DecidableEq, Repr

/-- The inner `for item in results["items"]` loop of `get_playlist_tracks`:
the position counter is incremented for every item, while only items with a
truthy track object (and a truthy extraction result, which coincides) are
appended. -/
def SpotifyClient.collectTracks : List PlaylistItem → Nat → List (Track × Nat)
  | [], _ => []
  | item :: rest, position =>
    let tail := SpotifyClient.collectTracks rest (position + 1)
    match SpotifyClient.extract_track_data item.track (item.is_local.getD false) with
    | some track_data => (track_data, position) :: tail
    | none => tail

/-- The pagination loop of `get_playlist_tracks`: one recursive step per
remote page; an empty `items` page breaks the loop
(`if not results["items"]: break`), the end of the page list models
`results["next"]` being null. -/
def SpotifyClient.fetchTrackPages :
    List (List PlaylistItem) → Nat → List (Track × Nat)
  | [], _ => []
  | page :: rest, position =>
    if page.isEmpty then []
    else
      SpotifyClient.collectTracks page position ++
        SpotifyClient.fetchTrackPages rest (position + page.length)

/-- `get_playlist_tracks(playlist_id)`, as a function of the page sequence the
remote API returns for that playlist; yields `(track_data, position)` pairs. -/
def SpotifyClient.get_playlist_tracks (pages : List (List PlaylistItem)) :
    List (Track × Nat) :=
  SpotifyClient.fetchTrackPages pages 0

/-- One remote fetch or store write performed by the per-playlist bodies of
the `sync` / `sync_diff` commands, in program order. -/
inductive SyncAction where
  | upsertPlaylist (playlist_data : Playlist)
  | fetchTracks (playlist_id : String)
  | clearRels (playlist_id : String)
  | saveTrack (playlist_id : String) (track_data : Track) (position : Nat)
  | writeSnapshot (playlist_id : String) (snapshot : String)
  deriving DecidableEq, Repr

/-- The store effect of each `SyncAction` (`fetchTracks` is a pure remote
read).  `saveTrack` is the loop body `db.insert_track(track_data);
db.add_track_to_playlist(playlist['id'], track_data['id'], position)`. -/
def applyAction (db : SpotifyDatabase) : SyncAction → SpotifyDatabase
  | .upsertPlaylist playlist_data => db.insert_playlist playlist_data
  | .fetchTracks _ => db
  | .clearRels playlist_id => db.clear_playlist_tracks playlist_id
  | .saveTrack playlist_id track_data position =>
    (db.insert_track track_data).add_track_to_playlist
      playlist_id track_data.id position
  | .writeSnapshot playlist_id snapshot =>
    db.set_playlist_snapshot playlist_id snapshot

/-- `pl_no_snap = dict(playlist); pl_no_snap.pop('snapshot_id', None)`. -/
def stripSnapshot (playlist : RemotePlaylist) : Playlist :=
  { id := playlist.id
    name := playlist.name
    description := playlist.description
    owner := playlist.owner
    public := playlist.public
    collaborative := playlist.collaborative
    tracks_total := playlist.tracks_total
    snapshot_id := none
    uri := playlist.uri
    external_url := playlist.external_url }

/-- Python truthiness of an optional string value
(`local_pl.get('snapshot_id')`): truthy iff present and non-empty. -/
def optTruthy : Option String → Bool
  | some s => !(s == "")
  | none => false

/-- The skip decision of the `sync_diff` playlist loop (`src/cli.py`
lines 116-126): prefer the snapshot comparison when both sides have a truthy
snapshot, else fall back to comparing the local relationship count with the
remote-reported total (and require a local copy to exist). -/
def diffSkip (db : SpotifyDatabase) (playlist : RemotePlaylist) : Bool :=
  match db.get_playlist playlist.id with
  | some local_pl =>
    if optTruthy local_pl.snapshot_id && !(playlist.snapshot_id == "") then
      local_pl.snapshot_id == some playlist.snapshot_id
    else
      db.get_playlist_track_count playlist.id == playlist.tracks_total
  | none => false

/-- The `for track_data, position in playlist_tracks` save loop shared by
`sync` and `sync_diff`. -/
def savePlaylistTracks (db : SpotifyDatabase) (playlist_id : String)
    (playlist_tracks : List (Track × Nat)) : SpotifyDatabase :=
  playlist_tracks.foldl
    (fun d tp => (d.insert_track tp.1).add_track_to_playlist playlist_id tp.1.id tp.2)
    db

/-- The body of the `sync_diff` playlist loop for one remote playlist
(`src/cli.py` lines 115-160), as a function of the current database and of
the page sequence the remote API would return for this playlist.  Returns the
resulting database together with the trace of fetches and writes performed. -/
def sync_diff_step (db : SpotifyDatabase) (playlist : RemotePlaylist)
    (pages : List (List PlaylistItem)) : SpotifyDatabase × List SyncAction :=
  if diffSkip db playlist then (db, [])
  else
    let db1 := db.insert_playlist (stripSnapshot playlist)
    let (db2, fetchActs) :=
      if 0 < playlist.tracks_total then
        let playlist_tracks := SpotifyClient.get_playlist_tracks pages
        let dbc := db1.clear_playlist_tracks playlist.id
        (savePlaylistTracks dbc playlist.id playlist_tracks,
          SyncAction.fetchTracks playlist.id :: SyncAction.clearRels playlist.id ::
            playlist_tracks.map (fun tp => SyncAction.saveTrack playlist.id tp.1 tp.2))
      else (db1, [])
    let (db3, snapActs) :=
      if !(playlist.snapshot_id == "") then
        (db2.set_playlist_snapshot playlist.id playlist.snapshot_id,
          [SyncAction.writeSnapshot playlist.id playlist.snapshot_id])
      else (db2, [])
    (db3, SyncAction.upsertPlaylist (stripSnapshot playlist) :: fetchActs ++ snapActs)

/-- The body of the full `sync` playlist loop for one remote playlist
(`src/cli.py` lines 308-351): no staleness check and no clearing of existing
relationships; otherwise the same upsert → fetch → save → snapshot sequence. -/
def sync_full_step (db : SpotifyDatabase) (playlist : RemotePlaylist)
    (pages : List (List PlaylistItem)) : SpotifyDatabase × List SyncAction :=
  let db1 := db.insert_playlist (stripSnapshot playlist)
  let (db2, fetchActs) :=
    if 0 < playlist.tracks_total then
      let playlist_tracks := SpotifyClient.get_playlist_tracks pages
      (savePlaylistTracks db1 playlist.id playlist_tracks,
        SyncAction.fetchTracks playlist.id ::
          playlist_tracks.map (fun tp => SyncAction.saveTrack playlist.id tp.1 tp.2))
    else (db1, [])
  let (db3, snapActs) :=
    if !(playlist.snapshot_id == "") then
      (db2.set_playlist_snapshot playlist.id playlist.snapshot_id,
        [SyncAction.writeSnapshot playlist.id playlist.snapshot_id])
    else (db2, [])
  (db3, SyncAction.upsertPlaylist (stripSnapshot playlist) :: fetchActs ++ snapActs)

/-- A whole differential pass over the remote playlist list: the loop applies
`sync_diff_step` to each playlist in order, threading the database and
concatenating the traces. -/
def sync_diff_pass (db : SpotifyDatabase) :
    List (RemotePlaylist × List (List PlaylistItem)) →
      SpotifyDatabase × List SyncAction
  | [] => (db, [])
  | (playlist, pages) :: rest =>
    let step := sync_diff_step db playlist pages
    let next := sync_diff_pass step.1 rest
    (next.1, step.2 ++ next.2)

/-- One step of the `counts` dict of the `duplicates` command:
`counts[tid] = counts.get(tid, 0) + 1`, keys kept in first-insertion order. -/
def bumpCount (m : List (String × Nat)) (track_id : String) :
    List (String × Nat) :=
  match m with
  | [] => [(track_id, 1)]
  | kv :: rest =>
    if kv.1 == track_id then (kv.1, kv.2 + 1) :: rest
    else kv :: bumpCount rest track_id

/-- The counting loop of `duplicates`: one increment per relationship row,
skipping rows with a falsy track id (`if not tid: continue`). -/
def countOccurrences (rels : List PlaylistTrackRow) : List (String × Nat) :=
  rels.foldl
    (fun counts rel =>
      if rel.track_id == "" then counts else bumpCount counts rel.track_id)
    []

/-- The comparison of `dupes.sort(key=lambda x: (-x[1], x[0].get('name','')))`:
descending count, then ascending track name. -/
def dupKeyLe (a b : Track × Nat) : Prop :=
  b.2 < a.2 ∨ (a.2 = b.2 ∧ a.1.name ≤ b.1.name)

instance : DecidableRel dupKeyLe := fun a b =>
  inferInstanceAs (Decidable (b.2 < a.2 ∨ (a.2 = b.2 ∧ a.1.name ≤ b.1.name)))

instance : IsTotal (Track × Nat) dupKeyLe := by
  constructor
  intro a b
  rcases Nat.lt_trichotomy a.2 b.2 with h | h | h
  · exact Or.inr (Or.inl h)
  · rcases le_total a.1.name b.1.name with hn | hn
    · exact Or.inl (Or.inr ⟨h, hn⟩)
    · exact Or.inr (Or.inr ⟨h.symm, hn⟩)
  · exact Or.inl (Or.inl h)

instance : IsTrans (Track × Nat) dupKeyLe := by
  constructor
  rintro a b c (h1 | ⟨h1, h1n⟩) (h2 | ⟨h2, h2n⟩)
  · exact Or.inl (h2.trans h1)
  · exact Or.inl (h2 ▸ h1)
  · exact Or.inl (h1 ▸ h2)
  · exact Or.inr ⟨h1.trans h2, h1n.trans h2n⟩

/-- The duplicate report of the `duplicates` command (`src/cli.py`
lines 558-599) before the display-only `[:limit]` slice: count relationship
rows per track id, keep the counted ids with count > 1 whose track document
exists, and sort by descending count then by track name. -/
def duplicatesReport (db : SpotifyDatabase) : List (Track × Nat) :=
  let counts := countOccurrences db.playlist_tracks
  let dupes := counts.filterMap (fun kv =>
    if 1 < kv.2 then (db.get_track kv.1).map (fun t => (t, kv.2)) else none)
  dupes.insertionSort dupKeyLe

/-! ### Helper lemmas about the store primitives -/

/-- `find?` commutes with a map that does not change the predicate's value. -/
theorem find?_map_stable {α : Type} (f : α → α) (p : α → Bool)
    (hf : ∀ x, p (f x) = p x) :
    ∀ l : List α, (l.map f).find? p = (l.find? p).map f := by
  intro l
  induction l with
  | nil => rfl
  | cons a l ih =>
    cases h : p a with
    | true => simp [List.find?_cons, hf a, h]
    | false => simp [List.find?_cons, hf a, h, ih]

theorem get_track_insert_self (db : SpotifyDatabase) (t : Track) :
    (db.insert_track t).get_track t.id = some t := by
  unfold SpotifyDatabase.insert_track SpotifyDatabase.get_track
  cases h : db.tracks.any (fun x => x.id == t.id) with
  | true =>
    simp only [if_true]
    have hf : ∀ x : Track,
        ((if x.id == t.id then t else x).id == t.id) = (x.id == t.id) := by
      intro x
      cases hb : x.id == t.id <;> simp [hb]
    rw [find?_map_stable _ _ hf]
    obtain ⟨y, hy⟩ := Option.isSome_iff_exists.mp
      (List.find?_isSome.mpr (List.any_eq_true.mp h))
    rw [hy]
    have hp := List.find?_some hy
    simp only [Option.map_some', hp, if_true]
  | false =>
    simp only [Bool.false_eq_true, if_false]
    rw [List.find?_append]
    have h1 : db.tracks.find? (fun x => x.id == t.id) = none := by
      rw [List.find?_eq_none]
      intro x hx hpx
      have hx2 : db.tracks.any (fun y => y.id == t.id) = true :=
        List.any_eq_true.mpr ⟨x, hx, hpx⟩
      rw [h] at hx2
      exact Bool.false_ne_true hx2
    simp [h1]

theorem insert_track_length_of_any (db : SpotifyDatabase) (t : Track)
    (h : db.tracks.any (fun x => x.id == t.id) = true) :
    (db.insert_track t).tracks.length = db.tracks.length := by
  unfold SpotifyDatabase.insert_track
  simp [h]

theorem mergePlaylistDoc_of_isSome (q p : Playlist) (h : p.snapshot_id.isSome) :
    mergePlaylistDoc q p = p := by
  obtain ⟨s, hs⟩ := Option.isSome_iff_exists.mp h
  cases p
  simp only [mergePlaylistDoc]
  simp_all

theorem get_playlist_insert_self (db : SpotifyDatabase) (p : Playlist)
    (h : p.snapshot_id.isSome) :
    (db.insert_playlist p).get_playlist p.id = some p := by
  unfold SpotifyDatabase.insert_playlist SpotifyDatabase.get_playlist
  cases hany : db.playlists.any (fun x => x.id == p.id) with
  | true =>
    simp only [if_true]
    have hf : ∀ x : Playlist,
        ((if x.id == p.id then mergePlaylistDoc x p else x).id == p.id)
          = (x.id == p.id) := by
      intro x
      cases hb : x.id == p.id <;>
        simp [hb, mergePlaylistDoc_of_isSome _ _ h]
    rw [find?_map_stable _ _ hf]
    obtain ⟨y, hy⟩ := Option.isSome_iff_exists.mp
      (List.find?_isSome.mpr (List.any_eq_true.mp hany))
    rw [hy]
    have hp := List.find?_some hy
    simp only [Option.map_some', hp, if_true, mergePlaylistDoc_of_isSome _ _ h]
  | false =>
    simp only [Bool.false_eq_true, if_false]
    rw [List.find?_append]
    have h1 : db.playlists.find? (fun x => x.id == p.id) = none := by
      rw [List.find?_eq_none]
      intro x hx hpx
      have hx2 : db.playlists.any (fun y => y.id == p.id) = true :=
        List.any_eq_true.mpr ⟨x, hx, hpx⟩
      rw [hany] at hx2
      exact Bool.false_ne_true hx2
    simp [h1]

theorem get_playlist_set_snapshot (db : SpotifyDatabase) (pid s : String) :
    (db.set_playlist_snapshot pid s).get_playlist pid
      = (db.get_playlist pid).map (fun p => { p with snapshot_id := some s }) := by
  unfold SpotifyDatabase.set_playlist_snapshot SpotifyDatabase.get_playlist
  have hf : ∀ x : Playlist,
      ((if x.id == pid then { x with snapshot_id := some s } else x).id == pid)
        = (x.id == pid) := by
    intro x
    cases hb : x.id == pid <;> simp [hb]
  rw [find?_map_stable _ _ hf]
  cases hy : db.playlists.find? (fun x => x.id == pid) with
  | none => simp
  | some y =>
    have hp := List.find?_some hy
    have hif : (if y.id == pid then { y with snapshot_id := some s } else y)
        = { y with snapshot_id := some s } := by rw [if_pos hp]
    simp only [Option.map_some']
    exact congrArg some hif

/-- The membership test of `add_track_to_playlist` holds of a row iff the row
is the exact (playlist, track, position) triple. -/
theorem relPred_iff (r : PlaylistTrackRow) (pid tid : String) (pos : Nat) :
    (r.playlist_id == pid && r.track_id == tid && r.position == pos) = true ↔
      r = ⟨pid, tid, pos⟩ := by
  cases r
  simp [and_assoc]

theorem add_track_mem (db : SpotifyDatabase) (pid tid : String) (pos : Nat) :
    (⟨pid, tid, pos⟩ : PlaylistTrackRow)
      ∈ (db.add_track_to_playlist pid tid pos).playlist_tracks := by
  unfold SpotifyDatabase.add_track_to_playlist
  split
  · next r hf =>
    have hp := List.find?_some hf
    rw [relPred_iff] at hp
    exact hp ▸ List.mem_of_find?_eq_some hf
  · simp

theorem add_track_subset (db : SpotifyDatabase) (pid tid : String) (pos : Nat)
    (r : PlaylistTrackRow) (h : r ∈ db.playlist_tracks) :
    r ∈ (db.add_track_to_playlist pid tid pos).playlist_tracks := by
  unfold SpotifyDatabase.add_track_to_playlist
  split
  · exact h
  · simp [List.mem_append, h]

theorem add_track_of_mem (db : SpotifyDatabase) (pid tid : String) (pos : Nat)
    (h : (⟨pid, tid, pos⟩ : PlaylistTrackRow) ∈ db.playlist_tracks) :
    db.add_track_to_playlist pid tid pos = db := by
  unfold SpotifyDatabase.add_track_to_playlist
  split
  · rfl
  · next hf =>
    exact absurd ((relPred_iff _ _ _ _).mpr rfl) (List.find?_eq_none.mp hf _ h)

theorem add_track_idem (db : SpotifyDatabase) (pid tid : String) (pos : Nat) :
    (db.add_track_to_playlist pid tid pos).add_track_to_playlist pid tid pos
      = db.add_track_to_playlist pid tid pos :=
  add_track_of_mem _ _ _ _ (add_track_mem db pid tid pos)

theorem add_track_nodup (db : SpotifyDatabase) (pid tid : String) (pos : Nat)
    (h : db.playlist_tracks.Nodup) :
    (db.add_track_to_playlist pid tid pos).playlist_tracks.Nodup := by
  unfold SpotifyDatabase.add_track_to_playlist
  split
  · exact h
  · next hf =>
    have hnm : (⟨pid, tid, pos⟩ : PlaylistTrackRow) ∉ db.playlist_tracks :=
      fun hm =>
        absurd ((relPred_iff _ _ _ _).mpr rfl) (List.find?_eq_none.mp hf _ hm)
    simpa [List.nodup_append] using ⟨h, hnm⟩

/-! ### Sample data used by witness theorems -/

def emptyDB : SpotifyDatabase :=
  { tracks := [], playlists := [], playlist_tracks := [], saved_tracks := [] }

def sampleTrack (i n : String) : Track :=
  { id := i, name := n, artist := "A", album := "B", duration_ms := 100,
    popularity := 1, explicit := false, uri := "u", external_url := "e",
    preview_url := "pv", release_date := "r", is_local := false }

def samplePlaylist (i n : String) (snap : Option String) (total : Nat) : Playlist :=
  { id := i, name := n, description := "d", owner := "o", public := true,
    collaborative := false, tracks_total := total, snapshot_id := snap,
    uri := "u", external_url := "e" }

/-! ### Claim theorems -/

/-- C10: `add_saved_track` is first-write-wins: when a saved row for the track
id already exists, the call leaves the store entirely unchanged whatever the
new timestamp is, and in general applying it twice (with any second timestamp)
equals applying it once. -/
theorem add_saved_track_first_write_wins (db : SpotifyDatabase)
    (tid ts1 ts2 : String) :
    ((∃ s ∈ db.saved_tracks, s.track_id = tid) →
      ∀ ts, db.add_saved_track tid ts = db) ∧
    (db.add_saved_track tid ts1).add_saved_track tid ts2
      = db.add_saved_track tid ts1 := by
  have hof : ∀ d : SpotifyDatabase, (∃ s ∈ d.saved_tracks, s.track_id = tid) →
      ∀ ts, d.add_saved_track tid ts = d := by
    rintro d ⟨s, hs, hid⟩ ts
    unfold SpotifyDatabase.add_saved_track
    split
    · rfl
    · next hf =>
      exact absurd (by simpa using hid) (List.find?_eq_none.mp hf s hs)
  refine ⟨hof db, hof _ ?_ ts2⟩
  unfold SpotifyDatabase.add_saved_track
  split
  · next r hf =>
    exact ⟨r, List.mem_of_find?_eq_some hf, by simpa using List.find?_some hf⟩
  · exact ⟨⟨tid, ts1⟩, by simp, rfl⟩

def savedDB : SpotifyDatabase :=
  { emptyDB with saved_tracks := [⟨"t1", "2020-01-01"⟩] }

/-- Witness for C10 at a concrete store: a second `add_saved_track` with a
different timestamp leaves the row untouched. -/
theorem add_saved_track_first_write_wins_witness :
    (∃ s ∈ savedDB.saved_tracks, s.track_id = "t1") ∧
      savedDB.add_saved_track "t1" "2021-09-09" = savedDB :=
  ⟨by decide,
    (add_saved_track_first_write_wins savedDB "t1" "x" "y").1 (by decide)
      "2021-09-09"⟩

/-- C4: re-adding an identical (playlist, track, position) triple is a no-op
leaving exactly one matching row, a different position for the same
(playlist, track) pair adds a second row instead of replacing the first, and
the operations touching the relationship table preserve the no-two-identical-
rows invariant. -/
theorem add_track_to_playlist_idempotent (db : SpotifyDatabase)
    (pid tid : String) (pos pos' : Nat)
    (hnd : db.playlist_tracks.Nodup) :
    ((db.add_track_to_playlist pid tid pos).add_track_to_playlist pid tid pos
      = db.add_track_to_playlist pid tid pos) ∧
    ((db.add_track_to_playlist pid tid pos).playlist_tracks.count
      ⟨pid, tid, pos⟩ = 1) ∧
    (pos ≠ pos' →
      (⟨pid, tid, pos⟩ : PlaylistTrackRow) ∈
        ((db.add_track_to_playlist pid tid pos).add_track_to_playlist
          pid tid pos').playlist_tracks ∧
      (⟨pid, tid, pos'⟩ : PlaylistTrackRow) ∈
        ((db.add_track_to_playlist pid tid pos).add_track_to_playlist
          pid tid pos').playlist_tracks) ∧
    (db.add_track_to_playlist pid tid pos).playlist_tracks.Nodup ∧
    (db.clear_playlist_tracks pid).playlist_tracks.Nodup ∧
    (db.clear_all).playlist_tracks.Nodup := by
  refine ⟨add_track_idem db pid tid pos,
    List.count_eq_one_of_mem (add_track_nodup db pid tid pos hnd)
      (add_track_mem db pid tid pos),
    fun _ => ⟨add_track_subset _ pid tid pos' _ (add_track_mem db pid tid pos),
      add_track_mem _ pid tid pos'⟩,
    add_track_nodup db pid tid pos hnd, ?_, ?_⟩
  · exact hnd.filter _
  · simp [SpotifyDatabase.clear_all]

/-- Witness for C4 at a concrete store: after two identical inserts the
relationship table holds the row exactly once. -/
theorem add_track_to_playlist_idempotent_witness :
    (emptyDB.playlist_tracks.Nodup) ∧
      ((emptyDB.add_track_to_playlist "p" "t" 0).add_track_to_playlist "p" "t" 0
          = emptyDB.add_track_to_playlist "p" "t" 0) ∧
      (emptyDB.add_track_to_playlist "p" "t" 0).playlist_tracks.count
        ⟨"p", "t", 0⟩ = 1 :=
  ⟨by decide,
    (add_track_to_playlist_idempotent emptyDB "p" "t" 0 1 (by decide)).1,
    (add_track_to_playlist_idempotent emptyDB "p" "t" 0 1 (by decide)).2.1⟩

/-- C5: a track written then read back by id is returned field for field;
writing a second track with the same id makes a subsequent read return the
second version in full while the total track count stays what it was after
the first insert; playlists round-trip the same way through
`insert_playlist`/`get_playlist`, and the later `set_playlist_snapshot`
mutation changes exactly the snapshot marker field. -/
theorem insert_round_trip_last_write_wins (db : SpotifyDatabase)
    (t1 t2 : Track) (p : Playlist) (s : String)
    (hid : t2.id = t1.id) (hp : p.snapshot_id.isSome) :
    (db.insert_track t1).get_track t1.id = some t1 ∧
    ((db.insert_track t1).insert_track t2).get_track t2.id = some t2 ∧
    ((db.insert_track t1).insert_track t2).tracks.length
      = (db.insert_track t1).tracks.length ∧
    (db.insert_playlist p).get_playlist p.id = some p ∧
    ((db.insert_playlist p).set_playlist_snapshot p.id s).get_playlist p.id
      = some { p with snapshot_id := some s } := by
  refine ⟨get_track_insert_self db t1, get_track_insert_self _ t2, ?_,
    get_playlist_insert_self db p hp, ?_⟩
  · apply insert_track_length_of_any
    have ht1 : t1 ∈ (db.insert_track t1).tracks :=
      List.mem_of_find?_eq_some (get_track_insert_self db t1)
    exact List.any_eq_true.mpr ⟨t1, ht1, by simp [hid]⟩
  · rw [get_playlist_set_snapshot, get_playlist_insert_self db p hp]
    rfl

/-- Witness for C5 at concrete records: re-inserting an edited track with the
same id yields the second version on read and leaves the count at 1. -/
theorem insert_round_trip_last_write_wins_witness :
    ((sampleTrack "id1" "second").id = (sampleTrack "id1" "first").id) ∧
    ((samplePlaylist "pl1" "P" (some "snap1") 3).snapshot_id.isSome) ∧
    ((emptyDB.insert_track (sampleTrack "id1" "first")).insert_track
        (sampleTrack "id1" "second")).get_track (sampleTrack "id1" "second").id
      = some (sampleTrack "id1" "second") ∧
    ((emptyDB.insert_track (sampleTrack "id1" "first")).insert_track
        (sampleTrack "id1" "second")).tracks.length
      = (emptyDB.insert_track (sampleTrack "id1" "first")).tracks.length :=
  ⟨rfl, rfl,
    (insert_round_trip_last_write_wins emptyDB (sampleTrack "id1" "first")
      (sampleTrack "id1" "second") (samplePlaylist "pl1" "P" (some "snap1") 3)
      "s2" rfl rfl).2.1,
    (insert_round_trip_last_write_wins emptyDB (sampleTrack "id1" "first")
      (sampleTrack "id1" "second") (samplePlaylist "pl1" "P" (some "snap1") 3)
      "s2" rfl rfl).2.2.1⟩

/-! ### Pagination lemmas (claim C3) -/

theorem collectTracks_sound :
    ∀ (items : List PlaylistItem) (p : Nat) (td : Track) (pos : Nat),
      (td, pos) ∈ SpotifyClient.collectTracks items p →
      ∃ i, pos = p + i ∧ ∃ it, items.get? i = some it ∧
        SpotifyClient.extract_track_data it.track (it.is_local.getD false)
          = some td := by
  intro items
  induction items with
  | nil => intro p td pos h; simp [SpotifyClient.collectTracks] at h
  | cons it rest ih =>
    intro p td pos h
    cases hx : SpotifyClient.extract_track_data it.track (it.is_local.getD false) with
    | some td0 =>
      simp only [SpotifyClient.collectTracks, hx] at h
      rcases List.mem_cons.mp h with h1 | h1
      · simp only [Prod.mk.injEq] at h1
        obtain ⟨h2, h3⟩ := h1
        subst h2
        subst h3
        exact ⟨0, by omega, it, rfl, hx⟩
      · obtain ⟨i, hpos, it', hget, hex⟩ := ih (p + 1) td pos h1
        exact ⟨i + 1, by omega, it', by simpa using hget, hex⟩
    | none =>
      simp only [SpotifyClient.collectTracks, hx] at h
      obtain ⟨i, hpos, it', hget, hex⟩ := ih (p + 1) td pos h
      exact ⟨i + 1, by omega, it', by simpa using hget, hex⟩

theorem collectTracks_complete :
    ∀ (items : List PlaylistItem) (p i : Nat) (it : PlaylistItem),
      items.get? i = some it →
      ∀ td, SpotifyClient.extract_track_data it.track (it.is_local.getD false)
          = some td →
      (td, p + i) ∈ SpotifyClient.collectTracks items p := by
  intro items
  induction items with
  | nil => intro p i it h; simp at h
  | cons hd rest ih =>
    intro p i it hget td hex
    cases i with
    | zero =>
      simp only [List.get?_cons_zero, Option.some.injEq] at hget
      subst hget
      simp [SpotifyClient.collectTracks, hex]
    | succ j =>
      have h2 := ih (p + 1) j it (by simpa using hget) td hex
      have harith : p + (j + 1) = (p + 1) + j := by omega
      rw [harith]
      cases hx : SpotifyClient.extract_track_data hd.track (hd.is_local.getD false) with
      | some td0 =>
        simp only [SpotifyClient.collectTracks, hx, List.mem_cons]
        exact Or.inr h2
      | none =>
        simp only [SpotifyClient.collectTracks, hx]
        exact h2

theorem collectTracks_lower (items : List PlaylistItem) (p : Nat) (td : Track)
    (pos : Nat) (h : (td, pos) ∈ SpotifyClient.collectTracks items p) :
    p ≤ pos := by
  obtain ⟨i, hpos, -⟩ := collectTracks_sound items p td pos h
  omega

theorem collectTracks_pairwise :
    ∀ (items : List PlaylistItem) (p : Nat),
      ((SpotifyClient.collectTracks items p).map Prod.snd).Pairwise (· < ·) := by
  intro items
  induction items with
  | nil => intro p; simp [SpotifyClient.collectTracks]
  | cons hd rest ih =>
    intro p
    cases hx : SpotifyClient.extract_track_data hd.track (hd.is_local.getD false) with
    | none => simpa only [SpotifyClient.collectTracks, hx] using ih (p + 1)
    | some td0 =>
      simp only [SpotifyClient.collectTracks, hx, List.map_cons]
      rw [List.pairwise_cons]
      refine ⟨?_, ih (p + 1)⟩
      intro q hq
      obtain ⟨⟨td, pos⟩, hmem, rfl⟩ := List.mem_map.mp hq
      have := collectTracks_lower rest (p + 1) td pos hmem
      omega

theorem collectTracks_append (l1 l2 : List PlaylistItem) :
    ∀ p, SpotifyClient.collectTracks (l1 ++ l2) p
      = SpotifyClient.collectTracks l1 p ++
          SpotifyClient.collectTracks l2 (p + l1.length) := by
  induction l1 with
  | nil => intro p; simp [SpotifyClient.collectTracks]
  | cons hd rest ih =>
    intro p
    have harith : p + 1 + rest.length = p + (rest.length + 1) := by omega
    cases hx : SpotifyClient.extract_track_data hd.track (hd.is_local.getD false) with
    | some td0 =>
      simp only [List.cons_append, SpotifyClient.collectTracks, hx,
        List.length_cons, List.append_eq]
      rw [ih (p + 1), harith]
    | none =>
      simp only [List.cons_append, SpotifyClient.collectTracks, hx,
        List.length_cons, List.append_eq]
      rw [ih (p + 1), harith]

theorem fetchTrackPages_sound :
    ∀ (pages : List (List PlaylistItem)) (p : Nat) (td : Track) (pos : Nat),
      (td, pos) ∈ SpotifyClient.fetchTrackPages pages p →
      ∃ i, pos = p + i ∧ ∃ it, pages.flatten.get? i = some it ∧
        SpotifyClient.extract_track_data it.track (it.is_local.getD false)
          = some td := by
  intro pages
  induction pages with
  | nil => intro p td pos h; simp [SpotifyClient.fetchTrackPages] at h
  | cons pg rest ih =>
    intro p td pos h
    cases hpg : pg.isEmpty with
    | true => simp [SpotifyClient.fetchTrackPages, hpg] at h
    | false =>
      simp only [SpotifyClient.fetchTrackPages, hpg, Bool.false_eq_true,
        if_false] at h
      rcases List.mem_append.mp h with h1 | h1
      · obtain ⟨i, hpos, it, hget, hex⟩ := collectTracks_sound pg p td pos h1
        obtain ⟨hlt, -⟩ := List.get?_eq_some.mp hget
        refine ⟨i, hpos, it, ?_, hex⟩
        rw [List.flatten_cons, List.get?_append hlt]
        exact hget
      · obtain ⟨i, hpos, it, hget, hex⟩ := ih (p + pg.length) td pos h1
        refine ⟨pg.length + i, by omega, it, ?_, hex⟩
        rw [List.flatten_cons, List.get?_append_right (by omega)]
        have harith : pg.length + i - pg.length = i := by omega
        rw [harith]
        exact hget

theorem fetchTrackPages_pairwise :
    ∀ (pages : List (List PlaylistItem)) (p : Nat),
      ((SpotifyClient.fetchTrackPages pages p).map Prod.snd).Pairwise (· < ·) := by
  intro pages
  induction pages with
  | nil => intro p; simp [SpotifyClient.fetchTrackPages]
  | cons pg rest ih =>
    intro p
    cases hpg : pg.isEmpty with
    | true => simp [SpotifyClient.fetchTrackPages, hpg]
    | false =>
      simp only [SpotifyClient.fetchTrackPages, hpg, Bool.false_eq_true,
        if_false, List.map_append]
      rw [List.pairwise_append]
      refine ⟨collectTracks_pairwise pg p, ih _, ?_⟩
      intro a ha b hb
      obtain ⟨⟨td, pos⟩, hmem, rfl⟩ := List.mem_map.mp ha
      obtain ⟨⟨td', pos'⟩, hmem', rfl⟩ := List.mem_map.mp hb
      obtain ⟨i, hpos, it, hget, -⟩ := collectTracks_sound pg p td pos hmem
      obtain ⟨hlt, -⟩ := List.get?_eq_some.mp hget
      obtain ⟨j, hj, -⟩ := fetchTrackPages_sound rest (p + pg.length) td' pos' hmem'
      simp only
      omega

theorem fetchTrackPages_eq_join :
    ∀ (pages : List (List PlaylistItem)) (p : Nat), (∀ pg ∈ pages, pg ≠ []) →
      SpotifyClient.fetchTrackPages pages p
        = SpotifyClient.collectTracks pages.flatten p := by
  intro pages
  induction pages with
  | nil => intro p _; rfl
  | cons pg rest ih =>
    intro p h
    have h1 : pg ≠ [] := h pg (List.mem_cons_self _ _)
    have hpg : pg.isEmpty = false := by
      cases pg with
      | nil => exact absurd rfl h1
      | cons a l => rfl
    simp only [SpotifyClient.fetchTrackPages, hpg, Bool.false_eq_true, if_false,
      List.flatten_cons]
    rw [collectTracks_append]
    congr 1
    exact ih _ (fun q hq => h q (List.mem_cons_of_mem _ hq))

/-- C3: in the client's `get_playlist_tracks` the position counter advances
once per remote item in original order — including items whose track object is
null and which are therefore omitted from the result — so every returned pair
carries its item's zero-based index in the full remote ordering, and the
returned positions are strictly increasing. -/
theorem get_playlist_tracks_positions (pages : List (List PlaylistItem))
    (hne : ∀ pg ∈ pages, pg ≠ []) :
    (∀ td pos, (td, pos) ∈ SpotifyClient.get_playlist_tracks pages →
      ∃ it, pages.flatten.get? pos = some it ∧
        SpotifyClient.extract_track_data it.track (it.is_local.getD false)
          = some td) ∧
    (∀ i it, pages.flatten.get? i = some it →
      ∀ td, SpotifyClient.extract_track_data it.track (it.is_local.getD false)
          = some td → (td, i) ∈ SpotifyClient.get_playlist_tracks pages) ∧
    (∀ i it, pages.flatten.get? i = some it → it.track = none →
      ∀ td, (td, i) ∉ SpotifyClient.get_playlist_tracks pages) ∧
    ((SpotifyClient.get_playlist_tracks pages).map Prod.snd).Pairwise (· < ·) := by
  refine ⟨?_, ?_, ?_, fetchTrackPages_pairwise pages 0⟩
  · intro td pos h
    obtain ⟨i, hpos, it, hget, hex⟩ := fetchTrackPages_sound pages 0 td pos h
    have hip : i = pos := by omega
    subst hip
    exact ⟨it, hget, hex⟩
  · intro i it hget td hex
    have h := collectTracks_complete pages.flatten 0 i it hget td hex
    show (td, i) ∈ SpotifyClient.fetchTrackPages pages 0
    rw [fetchTrackPages_eq_join pages 0 hne]
    simpa using h
  · intro i it hget htrack td hmem
    obtain ⟨j, hj, it', hget', hex'⟩ := fetchTrackPages_sound pages 0 td i hmem
    have hj' : j = i := by omega
    subst hj'
    rw [hget] at hget'
    cases hget'
    rw [htrack] at hex'
    simp [SpotifyClient.extract_track_data] at hex'

def rawItemTrack (i n : String) : RawTrack :=
  { id := some i, name := some n, artists := some [some ⟨some "A"⟩],
    album := some ⟨some "Al", some "2020"⟩, duration_ms := some 100,
    popularity := some 5, explicit := some false, uri := some "u",
    external_urls := some ⟨some "e"⟩, preview_url := some "pv",
    is_local := some false }

def pages0 : List (List PlaylistItem) :=
  [[⟨some false, some (rawItemTrack "t1" "N1")⟩, ⟨none, none⟩,
    ⟨some false, some (rawItemTrack "t2" "N2")⟩]]

/-- Witness for C3 on a concrete page sequence whose middle item carries a
null track: the third item is still stored at its remote index 2. -/
theorem get_playlist_tracks_positions_witness :
    (∀ pg ∈ pages0, pg ≠ []) ∧
      (({ id := "t2", name := "N2", artist := "A", album := "Al",
          duration_ms := 100, popularity := 5, explicit := false, uri := "u",
          external_url := "e", preview_url := "pv", release_date := "2020",
          is_local := false } : Track), 2)
        ∈ SpotifyClient.get_playlist_tracks pages0 :=
  ⟨by decide,
    (get_playlist_tracks_positions pages0 (by decide)).2.1 2
      ⟨some false, some (rawItemTrack "t2" "N2")⟩ (by decide) _ (by decide)⟩

/-- C9: for a non-empty remote track object, a missing (or, per Python
truthiness, empty) remote id makes the stored id a deterministic function of
the URI and name; a track with no artist names gets exactly
"Unknown Artist" while otherwise the artist field is the joined display
string; and the stored duration is the remote millisecond count defaulted to
0, a non-negative integer. -/
theorem extract_track_data_spec (t t' : RawTrack) (b b' : Bool) :
    ((t.id = none ∨ t.id = some "") →
      ∀ tr, SpotifyClient.extract_track_data (some t) b = some tr →
        tr.id = md5hex ((t.uri.getD "") ++ ":" ++ (t.name.getD ""))) ∧
    (t.id = none → t'.id = none → t.uri = t'.uri → t.name = t'.name →
      (SpotifyClient.extract_track_data (some t) b).map Track.id
        = (SpotifyClient.extract_track_data (some t') b').map Track.id) ∧
    (∀ tr, SpotifyClient.extract_track_data (some t) b = some tr →
      (artistNames t = [] → tr.artist = "Unknown Artist") ∧
      (artistNames t ≠ [] →
        tr.artist = String.intercalate ", " (artistNames t)) ∧
      tr.duration_ms = t.duration_ms.getD 0 ∧ 0 ≤ tr.duration_ms) := by
  refine ⟨?_, ?_, ?_⟩
  · intro hid tr h
    simp only [SpotifyClient.extract_track_data, Option.some.injEq] at h
    subst h
    rcases hid with hid | hid <;> simp [hid]
  · intro h1 h2 hu hn
    simp [SpotifyClient.extract_track_data, h1, h2, hu, hn]
  · intro tr h
    simp only [SpotifyClient.extract_track_data, Option.some.injEq] at h
    subst h
    refine ⟨?_, ?_, rfl, Nat.zero_le _⟩
    · intro he
      simp [he]
    · intro hne
      have hf : (artistNames t).isEmpty = false := by
        cases hh : artistNames t with
        | nil => exact absurd hh hne
        | cons a l => rfl
      simp [hf]

def rawLocalA : RawTrack :=
  { id := none, name := some "Song", artists := some [],
    album := some ⟨some "AlbumA", some "2001"⟩, duration_ms := some 90,
    popularity := none, explicit := none, uri := some "spotify:local:x",
    external_urls := none, preview_url := none, is_local := some true }

def rawLocalB : RawTrack :=
  { id := none, name := some "Song", artists := some [some ⟨some "Z"⟩],
    album := none, duration_ms := none, popularity := some 7,
    explicit := some true, uri := some "spotify:local:x",
    external_urls := none, preview_url := some "q", is_local := none }

/-- Witness for C9: two id-less remote tracks sharing URI and name get the
same derived id even though every other field differs. -/
theorem extract_track_data_spec_witness :
    (rawLocalA.id = none ∧ rawLocalB.id = none ∧
        rawLocalA.uri = rawLocalB.uri ∧ rawLocalA.name = rawLocalB.name) ∧
      (SpotifyClient.extract_track_data (some rawLocalA) false).map Track.id
        = (SpotifyClient.extract_track_data (some rawLocalB) true).map Track.id :=
  ⟨⟨rfl, rfl, rfl, rfl⟩,
    (extract_track_data_spec rawLocalA rawLocalB false true).2.1 rfl rfl rfl rfl⟩

/-! ### Store read lemmas (claims C6, C7, C8) -/

/-- C6: `get_playlist_tracks` reads exactly the playlist's relationship rows,
in ascending-position order, silently dropping (never raising on) every row
whose track id has no track document. -/
theorem get_playlist_tracks_ordered_dangling (db : SpotifyDatabase)
    (pid : String) :
    (∀ t ∈ db.get_playlist_tracks pid, ∃ r ∈ db.playlist_tracks,
      r.playlist_id = pid ∧ db.get_track r.track_id = some t) ∧
    ∃ rels : List PlaylistTrackRow,
      rels.Perm (db.playlist_tracks.filter (fun r => r.playlist_id == pid)) ∧
      List.Sorted posLe rels ∧
      db.get_playlist_tracks pid
        = rels.filterMap (fun rel => db.get_track rel.track_id) := by
  constructor
  · intro t ht
    unfold SpotifyDatabase.get_playlist_tracks at ht
    obtain ⟨rel, hrel, hsome⟩ := List.mem_filterMap.mp ht
    rw [List.mem_insertionSort, List.mem_filter] at hrel
    exact ⟨rel, hrel.1, by simpa using hrel.2, hsome⟩
  · refine ⟨(db.playlist_tracks.filter
        (fun r => r.playlist_id == pid)).insertionSort posLe,
      List.perm_insertionSort posLe _, List.sorted_insertionSort posLe _, ?_⟩
    rfl

def dbC6 : SpotifyDatabase :=
  { tracks := [sampleTrack "t1" "A"], playlists := [],
    playlist_tracks := [⟨"p", "t1", 1⟩, ⟨"p", "tX", 0⟩], saved_tracks := [] }

/-- Witness for C6: in a store with a dangling row at position 0 the read
returns the surviving track, which traces back to its relationship row. -/
theorem get_playlist_tracks_ordered_dangling_witness :
    (sampleTrack "t1" "A") ∈ dbC6.get_playlist_tracks "p" ∧
      ∃ r ∈ dbC6.playlist_tracks, r.playlist_id = "p" ∧
        dbC6.get_track r.track_id = some (sampleTrack "t1" "A") :=
  ⟨by decide,
    (get_playlist_tracks_ordered_dangling dbC6 "p").1 _ (by decide)⟩

/-- First-match lookup in an insertion-ordered association list (proof tool
for the dict-building loops of `duplicates` and
`get_playlists_for_track`). -/
def lookupKey {β : Type} : List (String × β) → String → Option β
  | [], _ => none
  | kv :: rest, k => if kv.1 == k then some kv.2 else lookupKey rest k

theorem lookupKey_bumpCount_self (m : List (String × Nat)) (k : String) :
    lookupKey (bumpCount m k) k = some ((lookupKey m k).getD 0 + 1) := by
  induction m with
  | nil => simp [bumpCount, lookupKey]
  | cons kv rest ih =>
    by_cases hk : kv.1 = k
    · simp [bumpCount, lookupKey, hk]
    · have hb : (kv.1 == k) = false := beq_eq_false_iff_ne.mpr hk
      simp [bumpCount, lookupKey, hb, ih]

theorem lookupKey_bumpCount_other (m : List (String × Nat)) (k j : String)
    (h : j ≠ k) :
    lookupKey (bumpCount m k) j = lookupKey m j := by
  induction m with
  | nil =>
    simp [bumpCount, lookupKey, beq_eq_false_iff_ne.mpr (Ne.symm h)]
  | cons kv rest ih =>
    by_cases hk : kv.1 = k
    · subst hk
      simp [bumpCount, lookupKey, beq_eq_false_iff_ne.mpr (Ne.symm h)]
    · have hb : (kv.1 == k) = false := beq_eq_false_iff_ne.mpr hk
      by_cases hj : kv.1 = j
      · simp [bumpCount, lookupKey, hb, hj, h]
      · have hbj : (kv.1 == j) = false := beq_eq_false_iff_ne.mpr hj
        simp [bumpCount, lookupKey, hb, hbj, ih]

theorem bumpCount_keys_mem (m : List (String × Nat)) (k j : String) :
    j ∈ (bumpCount m k).map Prod.fst ↔ j ∈ m.map Prod.fst ∨ j = k := by
  induction m with
  | nil => simp [bumpCount]
  | cons kv rest ih =>
    by_cases hk : kv.1 = k
    · subst hk
      simp only [bumpCount, beq_self_eq_true, if_true, List.map_cons,
        List.mem_cons]
      tauto
    · have hb : (kv.1 == k) = false := beq_eq_false_iff_ne.mpr hk
      simp only [bumpCount, hb, Bool.false_eq_true, if_false, List.map_cons,
        List.mem_cons, ih]
      tauto

theorem bumpCount_keys_nodup (m : List (String × Nat)) (k : String)
    (h : (m.map Prod.fst).Nodup) :
    ((bumpCount m k).map Prod.fst).Nodup := by
  induction m with
  | nil => simp [bumpCount]
  | cons kv rest ih =>
    rw [List.map_cons, List.nodup_cons] at h
    by_cases hk : kv.1 = k
    · subst hk
      simp only [bumpCount, beq_self_eq_true, if_true, List.map_cons,
        List.nodup_cons]
      exact h
    · have hb : (kv.1 == k) = false := beq_eq_false_iff_ne.mpr hk
      simp only [bumpCount, hb, Bool.false_eq_true, if_false, List.map_cons,
        List.nodup_cons]
      refine ⟨fun hmem => ?_, ih h.2⟩
      rcases (bumpCount_keys_mem rest k kv.1).mp hmem with h1 | h1
      · exact h.1 h1
      · exact hk h1

theorem lookupKey_eq_of_mem {β : Type} :
    ∀ m : List (String × β), (m.map Prod.fst).Nodup → ∀ (k : String) (c : β),
      (k, c) ∈ m → lookupKey m k = some c := by
  intro m
  induction m with
  | nil => intro _ k c hm; simp at hm
  | cons kv rest ih =>
    intro hnd k c hm
    rw [List.map_cons, List.nodup_cons] at hnd
    rcases List.mem_cons.mp hm with h | h
    · cases h
      simp [lookupKey]
    · have hk : kv.1 ≠ k := by
        intro he
        exact hnd.1 (by rw [he]; exact List.mem_map.mpr ⟨(k, c), h, rfl⟩)
      have hb : (kv.1 == k) = false := beq_eq_false_iff_ne.mpr hk
      simp only [lookupKey, hb, Bool.false_eq_true, if_false]
      exact ih hnd.2 k c h

theorem mem_of_lookupKey {β : Type} :
    ∀ (m : List (String × β)) (k : String) (c : β),
      lookupKey m k = some c → (k, c) ∈ m := by
  intro m
  induction m with
  | nil => intro k c h; simp [lookupKey] at h
  | cons kv rest ih =>
    intro k c h
    cases kv with
    | mk a b =>
      by_cases hk : a = k
      · subst hk
        simp only [lookupKey, beq_self_eq_true, if_true,
          Option.some.injEq] at h
        subst h
        exact List.mem_cons_self _ _
      · have hb : (a == k) = false := beq_eq_false_iff_ne.mpr hk
        simp only [lookupKey, hb, Bool.false_eq_true, if_false] at h
        exact List.mem_cons_of_mem _ (ih k c h)

theorem countOccurrences_aux (k : String) (hk : k ≠ "") :
    ∀ (rels : List PlaylistTrackRow) (m : List (String × Nat)),
      lookupKey (rels.foldl (fun counts rel =>
          if rel.track_id == "" then counts
          else bumpCount counts rel.track_id) m) k
        = match lookupKey m k with
          | some v =>
            some (v + (rels.filter (fun r => r.track_id == k)).length)
          | none =>
            if (rels.filter (fun r => r.track_id == k)).length = 0 then none
            else some ((rels.filter (fun r => r.track_id == k)).length) := by
  intro rels
  induction rels with
  | nil =>
    intro m
    cases hm : lookupKey m k <;> simp [hm]
  | cons r rest ih =>
    intro m
    simp only [List.foldl_cons]
    by_cases hr0 : r.track_id = ""
    · have hb : (r.track_id == "") = true := by simp [hr0]
      have hfk : (r.track_id == k) = false :=
        beq_eq_false_iff_ne.mpr (by rw [hr0]; exact Ne.symm hk)
      simp only [hb, if_true, List.filter_cons, hfk, Bool.false_eq_true,
        if_false]
      exact ih m
    · have hb : (r.track_id == "") = false := beq_eq_false_iff_ne.mpr hr0
      simp only [hb, Bool.false_eq_true, if_false]
      rw [ih (bumpCount m r.track_id)]
      by_cases hrk : r.track_id = k
      · have hfk : (r.track_id == k) = true := by simp [hrk]
        rw [hrk, lookupKey_bumpCount_self]
        simp only [List.filter_cons, hfk, if_true, List.length_cons]
        cases hm : lookupKey m k with
        | some v =>
          simp only [hm, Option.getD_some]
          congr 1
          omega
        | none =>
          simp only [hm, Option.getD_none, Nat.add_eq, Nat.zero_add]
          rw [if_neg (by omega)]
          congr 1
          omega
      · have hfk : (r.track_id == k) = false := beq_eq_false_iff_ne.mpr hrk
        rw [lookupKey_bumpCount_other m r.track_id k (fun he => hrk he.symm)]
        simp only [List.filter_cons, hfk, Bool.false_eq_true, if_false]

theorem countOccurrences_lookup (rels : List PlaylistTrackRow) (k : String)
    (hk : k ≠ "") :
    lookupKey (countOccurrences rels) k
      = if (rels.filter (fun r => r.track_id == k)).length = 0 then none
        else some ((rels.filter (fun r => r.track_id == k)).length) := by
  have h := countOccurrences_aux k hk rels []
  simpa [countOccurrences, lookupKey] using h

theorem countOccurrences_keys_nodup (rels : List PlaylistTrackRow) :
    (((countOccurrences rels)).map Prod.fst).Nodup := by
  have haux : ∀ (l : List PlaylistTrackRow) (m : List (String × Nat)),
      (m.map Prod.fst).Nodup →
      ((l.foldl (fun counts rel =>
          if rel.track_id == "" then counts
          else bumpCount counts rel.track_id) m).map Prod.fst).Nodup := by
    intro l
    induction l with
    | nil => intro m hm; exact hm
    | cons r rest ih =>
      intro m hm
      simp only [List.foldl_cons]
      by_cases hr0 : (r.track_id == "") = true
      · simp only [hr0, if_true]
        exact ih m hm
      · simp only [hr0, if_false]
        exact ih _ (bumpCount_keys_nodup m r.track_id hm)
  exact haux rels [] (by simp)

theorem countOccurrences_empty_key (rels : List PlaylistTrackRow) :
    lookupKey (countOccurrences rels) "" = none := by
  have haux : ∀ (l : List PlaylistTrackRow) (m : List (String × Nat)),
      lookupKey m "" = none →
      lookupKey (l.foldl (fun counts rel =>
          if rel.track_id == "" then counts
          else bumpCount counts rel.track_id) m) "" = none := by
    intro l
    induction l with
    | nil => intro m hm; exact hm
    | cons r rest ih =>
      intro m hm
      simp only [List.foldl_cons]
      by_cases hr0 : r.track_id = ""
      · have hb : (r.track_id == "") = true := by simp [hr0]
        simp only [hb, if_true]
        exact ih m hm
      · have hb : (r.track_id == "") = false := beq_eq_false_iff_ne.mpr hr0
        simp only [hb, Bool.false_eq_true, if_false]
        exact ih _ (by
          rw [lookupKey_bumpCount_other m r.track_id "" (fun he => hr0 he.symm)]
          exact hm)
  exact haux rels [] rfl

def dupDanglingDB : SpotifyDatabase :=
  { tracks := [], playlists := [],
    playlist_tracks := [⟨"p1", "t1", 0⟩, ⟨"p2", "t1", 0⟩], saved_tracks := [] }

/-- Counterexample to C8 as stated: the track id "t1" has two relationship
rows across two playlists (count 2 > 1), yet the duplicate report is empty,
because no track document with id "t1" exists and the code keeps only counted
ids whose track record can be looked up. -/
theorem duplicates_report_counterexample :
    (dupDanglingDB.playlist_tracks.filter
        (fun r => r.track_id == "t1")).length = 2 ∧
      duplicatesReport dupDanglingDB = [] := by
  constructor <;> decide

/-- C8 (amended): the duplicate report counts relationship rows per track id
across all playlists and reports exactly those track ids whose count is
strictly greater than 1 *and whose track document exists* (rows with a falsy
track id are not counted, and counted ids whose track record is missing are
silently dropped), each paired with the full track record, sorted by
descending count and then by track name; a track id with exactly one row
never appears, and a recorded track sitting once in each of two playlists is
reported with count 2. -/
theorem duplicates_report_spec (db : SpotifyDatabase) (tid : String)
    (t : Track) (c : Nat) :
    List.Sorted dupKeyLe (duplicatesReport db) ∧
    ((t, c) ∈ duplicatesReport db →
      1 < c ∧ t.id ≠ "" ∧ db.get_track t.id = some t ∧
        c = (db.playlist_tracks.filter (fun r => r.track_id == t.id)).length) ∧
    (tid ≠ "" →
      1 < (db.playlist_tracks.filter (fun r => r.track_id == tid)).length →
      db.get_track tid = some t →
      (t, (db.playlist_tracks.filter (fun r => r.track_id == tid)).length)
        ∈ duplicatesReport db) := by
  refine ⟨List.sorted_insertionSort dupKeyLe _, ?_, ?_⟩
  · intro hmem
    unfold duplicatesReport at hmem
    rw [List.mem_insertionSort] at hmem
    obtain ⟨kv, hkv, hsome⟩ := List.mem_filterMap.mp hmem
    by_cases h1 : 1 < kv.2
    · rw [if_pos h1] at hsome
      cases hg : db.get_track kv.1 with
      | none => rw [hg] at hsome; simp at hsome
      | some t0 =>
        rw [hg] at hsome
        simp only [Option.map_some', Option.some.injEq, Prod.mk.injEq] at hsome
        obtain ⟨ht, hc⟩ := hsome
        subst ht
        subst hc
        have htid : t0.id = kv.1 := by simpa using List.find?_some hg
        have hnd := countOccurrences_keys_nodup db.playlist_tracks
        have hlk : lookupKey (countOccurrences db.playlist_tracks) kv.1
            = some kv.2 :=
          lookupKey_eq_of_mem _ hnd kv.1 kv.2 (by simpa using hkv)
        have hne : kv.1 ≠ "" := by
          intro he
          rw [he, countOccurrences_empty_key] at hlk
          exact Option.noConfusion hlk
        rw [countOccurrences_lookup _ _ hne] at hlk
        refine ⟨h1, by rw [htid]; exact hne, by rw [htid]; exact hg, ?_⟩
        rw [htid]
        split at hlk
        · exact absurd hlk (by simp)
        · exact (Option.some.inj hlk).symm
    · rw [if_neg h1] at hsome
      exact absurd hsome (by simp)
  · intro hne hgt hg
    unfold duplicatesReport
    rw [List.mem_insertionSort]
    apply List.mem_filterMap.mpr
    refine ⟨(tid,
      (db.playlist_tracks.filter (fun r => r.track_id == tid)).length),
      ?_, ?_⟩
    · apply mem_of_lookupKey
      rw [countOccurrences_lookup _ _ hne, if_neg (by omega)]
    · rw [if_pos hgt, hg]
      rfl

def dupDB : SpotifyDatabase :=
  { tracks := [sampleTrack "t1" "A"], playlists := [],
    playlist_tracks := [⟨"p1", "t1", 0⟩, ⟨"p2", "t1", 0⟩], saved_tracks := [] }

/-- Witness for the amended C8: a recorded track appearing once in each of
two playlists is reported with count 2. -/
theorem duplicates_report_spec_witness :
    ("t1" ≠ "") ∧
      1 < (dupDB.playlist_tracks.filter (fun r => r.track_id == "t1")).length ∧
      dupDB.get_track "t1" = some (sampleTrack "t1" "A") ∧
      ((sampleTrack "t1" "A", 2) ∈ duplicatesReport dupDB) :=
  ⟨by decide, by decide, by decide,
    (duplicates_report_spec dupDB "t1" (sampleTrack "t1" "A") 0).2.2
      (by decide) (by decide) (by decide)⟩

theorem lookupKey_upsertAppend_self (m : List (String × List Nat)) (k : String)
    (pos : Nat) :
    lookupKey (upsertAppend m k pos) k
      = some ((lookupKey m k).getD [] ++ [pos]) := by
  induction m with
  | nil => simp [upsertAppend, lookupKey]
  | cons kv rest ih =>
    by_cases hk : kv.1 = k
    · simp [upsertAppend, lookupKey, hk]
    · have hb : (kv.1 == k) = false := beq_eq_false_iff_ne.mpr hk
      simp [upsertAppend, lookupKey, hb, ih]

theorem lookupKey_upsertAppend_other (m : List (String × List Nat))
    (k : String) (pos : Nat) (j : String) (h : j ≠ k) :
    lookupKey (upsertAppend m k pos) j = lookupKey m j := by
  induction m with
  | nil =>
    simp [upsertAppend, lookupKey, beq_eq_false_iff_ne.mpr (Ne.symm h)]
  | cons kv rest ih =>
    by_cases hk : kv.1 = k
    · subst hk
      simp [upsertAppend, lookupKey, beq_eq_false_iff_ne.mpr (Ne.symm h)]
    · have hb : (kv.1 == k) = false := beq_eq_false_iff_ne.mpr hk
      by_cases hj : kv.1 = j
      · simp [upsertAppend, lookupKey, hb, hj, h]
      · have hbj : (kv.1 == j) = false := beq_eq_false_iff_ne.mpr hj
        simp [upsertAppend, lookupKey, hb, hbj, ih]

theorem upsertAppend_keys_mem (m : List (String × List Nat)) (k : String)
    (pos : Nat) (j : String) :
    j ∈ (upsertAppend m k pos).map Prod.fst ↔ j ∈ m.map Prod.fst ∨ j = k := by
  induction m with
  | nil => simp [upsertAppend]
  | cons kv rest ih =>
    by_cases hk : kv.1 = k
    · subst hk
      simp only [upsertAppend, beq_self_eq_true, if_true, List.map_cons,
        List.mem_cons]
      tauto
    · have hb : (kv.1 == k) = false := beq_eq_false_iff_ne.mpr hk
      simp only [upsertAppend, hb, Bool.false_eq_true, if_false,
        List.map_cons, List.mem_cons, ih]
      tauto

theorem upsertAppend_keys_nodup (m : List (String × List Nat)) (k : String)
    (pos : Nat) (h : (m.map Prod.fst).Nodup) :
    ((upsertAppend m k pos).map Prod.fst).Nodup := by
  induction m with
  | nil => simp [upsertAppend]
  | cons kv rest ih =>
    rw [List.map_cons, List.nodup_cons] at h
    by_cases hk : kv.1 = k
    · subst hk
      simp only [upsertAppend, beq_self_eq_true, if_true, List.map_cons,
        List.nodup_cons]
      exact h
    · have hb : (kv.1 == k) = false := beq_eq_false_iff_ne.mpr hk
      simp only [upsertAppend, hb, Bool.false_eq_true, if_false,
        List.map_cons, List.nodup_cons]
      refine ⟨fun hmem => ?_, ih h.2⟩
      rcases (upsertAppend_keys_mem rest k pos kv.1).mp hmem with h1 | h1
      · exact h.1 h1
      · exact hk h1

theorem groupPositions_aux (k : String) :
    ∀ (rels : List PlaylistTrackRow) (m : List (String × List Nat)),
      lookupKey (rels.foldl (fun m rel =>
          upsertAppend m rel.playlist_id rel.position) m) k
        = match lookupKey m k with
          | some v =>
            some (v ++ (rels.filter (fun r => r.playlist_id == k)).map
              (fun r => r.position))
          | none =>
            if (rels.filter (fun r => r.playlist_id == k)) = [] then none
            else some ((rels.filter (fun r => r.playlist_id == k)).map
              (fun r => r.position)) := by
  intro rels
  induction rels with
  | nil =>
    intro m
    cases hm : lookupKey m k <;> simp [hm]
  | cons r rest ih =>
    intro m
    simp only [List.foldl_cons]
    rw [ih (upsertAppend m r.playlist_id r.position)]
    by_cases hrk : r.playlist_id = k
    · have hfk : (r.playlist_id == k) = true := by simp [hrk]
      rw [hrk, lookupKey_upsertAppend_self]
      simp only [List.filter_cons, hfk, if_true, List.map_cons]
      cases hm : lookupKey m k with
      | some v => simp [hm]
      | none => simp [hm]
    · have hfk : (r.playlist_id == k) = false := beq_eq_false_iff_ne.mpr hrk
      rw [lookupKey_upsertAppend_other m r.playlist_id r.position k
        (fun he => hrk he.symm)]
      simp only [List.filter_cons, hfk, Bool.false_eq_true, if_false]

theorem groupPositions_keys_nodup (rels : List PlaylistTrackRow) :
    ((rels.foldl (fun m rel =>
        upsertAppend m rel.playlist_id rel.position) []).map Prod.fst).Nodup := by
  have haux : ∀ (l : List PlaylistTrackRow) (m : List (String × List Nat)),
      (m.map Prod.fst).Nodup →
      ((l.foldl (fun m rel =>
          upsertAppend m rel.playlist_id rel.position) m).map Prod.fst).Nodup := by
    intro l
    induction l with
    | nil => intro m hm; exact hm
    | cons r rest ih =>
      intro m hm
      simp only [List.foldl_cons]
      exact ih _ (upsertAppend_keys_nodup m r.playlist_id r.position hm)
  exact haux rels [] (by simp)

/-- A `filterMap` that only ever keeps `f₀ a` for some elements produces a
sublist of `map f₀`. -/
theorem filterMap_sublist_map {α β : Type} (h : α → Option β) (f₀ : α → β)
    (hh : ∀ a, h a = none ∨ h a = some (f₀ a)) :
    ∀ l : List α, List.Sublist (l.filterMap h) (l.map f₀) := by
  intro l
  induction l with
  | nil => simp
  | cons a l ih =>
    rcases hh a with ha | ha
    · simp only [List.filterMap_cons, ha, List.map_cons]
      exact ih.cons (f₀ a)
    · simp only [List.filterMap_cons, ha, List.map_cons]
      exact ih.cons₂ (f₀ a)

/-- Normal form of `get_playlists_for_track` used in the proofs below. -/
theorem get_playlists_for_track_eq (db : SpotifyDatabase) (tid : String) :
    db.get_playlists_for_track tid
      = (((db.playlist_tracks.filter (fun r => r.track_id == tid)).foldl
            (fun m rel => upsertAppend m rel.playlist_id rel.position) []
          ).filterMap (fun kv => (db.get_playlist kv.1).map
            (fun pl => TrackPlaylistEntry.pl pl (kv.2.insertionSort (· ≤ ·))))
          ++ (if db.saved_tracks.any (fun s => s.track_id == tid)
              then [TrackPlaylistEntry.likedSongs] else [])
        ).insertionSort entryKeyLe := by
  cases h : db.saved_tracks.any (fun s => s.track_id == tid) <;>
    simp [SpotifyDatabase.get_playlists_for_track, h]

theorem groupPositions_lookup (rels : List PlaylistTrackRow) (k : String) :
    lookupKey (rels.foldl (fun m rel =>
        upsertAppend m rel.playlist_id rel.position) []) k
      = if (rels.filter (fun r => r.playlist_id == k)) = [] then none
        else some ((rels.filter (fun r => r.playlist_id == k)).map
          (fun r => r.position)) := by
  have h := groupPositions_aux k rels []
  simpa [lookupKey] using h

/-- The id carried by an entry of `get_playlists_for_track` (the synthetic
liked-songs entry is not a stored playlist). -/
def entryId : TrackPlaylistEntry → Option String
  | .pl p _ => some p.id
  | .likedSongs => none

/-- C7: `get_playlists_for_track` returns one entry per stored playlist
containing the track, each carrying all of that track's positions in that
playlist as an ascending list (repeats preserved); rows whose playlist
document is missing are silently dropped; a synthetic liked-songs entry is
present exactly when the track has a saved marker; and the result is sorted
case-insensitively by name. -/
theorem get_playlists_for_track_spec (db : SpotifyDatabase) (tid : String) :
    List.Sorted entryKeyLe (db.get_playlists_for_track tid) ∧
    ((TrackPlaylistEntry.likedSongs ∈ db.get_playlists_for_track tid)
      ↔ ∃ s ∈ db.saved_tracks, s.track_id = tid) ∧
    (∀ p ps, TrackPlaylistEntry.pl p ps ∈ db.get_playlists_for_track tid →
      db.get_playlist p.id = some p ∧
      List.Sorted (· ≤ ·) ps ∧
      ps.Perm ((db.playlist_tracks.filter (fun r =>
        r.track_id == tid && r.playlist_id == p.id)).map (fun r => r.position)) ∧
      ps ≠ []) ∧
    ((db.get_playlists_for_track tid).filterMap entryId).Nodup ∧
    (∀ pid, (∃ r ∈ db.playlist_tracks, r.track_id = tid ∧ r.playlist_id = pid) →
      (db.get_playlist pid).isSome →
      ∃ p ps, TrackPlaylistEntry.pl p ps ∈ db.get_playlists_for_track tid ∧
        p.id = pid) := by
  refine ⟨?_, ?_, ?_, ?_, ?_⟩
  · rw [get_playlists_for_track_eq]
    exact List.sorted_insertionSort entryKeyLe _
  · rw [get_playlists_for_track_eq, List.mem_insertionSort, List.mem_append]
    constructor
    · rintro (h | h)
      · exfalso
        obtain ⟨kv, -, hsome⟩ := List.mem_filterMap.mp h
        cases hg : db.get_playlist kv.1 with
        | none => rw [hg] at hsome; simp at hsome
        | some pl => rw [hg] at hsome; simp [entryId] at hsome
      · by_cases hs : db.saved_tracks.any (fun s => s.track_id == tid) = true
        · obtain ⟨s, hs1, hs2⟩ := List.any_eq_true.mp hs
          exact ⟨s, hs1, by simpa using hs2⟩
        · rw [if_neg hs] at h
          simp at h
    · rintro ⟨s, hs1, hs2⟩
      right
      rw [if_pos (List.any_eq_true.mpr ⟨s, hs1, by simpa using hs2⟩)]
      simp
  · intro p ps hmem
    rw [get_playlists_for_track_eq, List.mem_insertionSort,
      List.mem_append] at hmem
    rcases hmem with h | h
    · obtain ⟨kv, hkv, hsome⟩ := List.mem_filterMap.mp h
      cases hg : db.get_playlist kv.1 with
      | none => rw [hg] at hsome; simp at hsome
      | some pl =>
        rw [hg] at hsome
        simp only [Option.map_some', Option.some.injEq,
          TrackPlaylistEntry.pl.injEq] at hsome
        obtain ⟨hpl, hps⟩ := hsome
        subst hpl
        subst hps
        have hid : pl.id = kv.1 := by simpa using List.find?_some hg
        have hlk : lookupKey ((db.playlist_tracks.filter
            (fun r => r.track_id == tid)).foldl (fun m rel =>
              upsertAppend m rel.playlist_id rel.position) []) kv.1
            = some kv.2 :=
          lookupKey_eq_of_mem _ (groupPositions_keys_nodup _) kv.1 kv.2
            (by simpa using hkv)
        rw [groupPositions_lookup] at hlk
        have hfilter : ((db.playlist_tracks.filter
            (fun r => r.track_id == tid)).filter
              (fun r => r.playlist_id == kv.1))
            = db.playlist_tracks.filter (fun r =>
                r.track_id == tid && r.playlist_id == kv.1) := by
          rw [List.filter_filter]
          exact List.filter_congr (fun a _ => Bool.and_comm _ _)
        split at hlk
        · exact absurd hlk (by simp)
        · next hfne =>
          have hkv2 := Option.some.inj hlk
          have hnil : kv.2 ≠ [] := by
            rw [← hkv2]
            intro he
            rw [List.map_eq_nil] at he
            exact hfne he
          refine ⟨by rw [hid]; exact hg, List.sorted_insertionSort _ _, ?_, ?_⟩
          · rw [hid, ← hfilter, ← hkv2]
            exact List.perm_insertionSort _ _
          · intro he
            apply hnil
            have hp := List.perm_insertionSort (fun a b : Nat => a ≤ b) kv.2
            rw [he] at hp
            exact (hp.symm).eq_nil
    · exfalso
      revert h
      split <;> simp
  · rw [get_playlists_for_track_eq]
    have hperm := (List.perm_insertionSort entryKeyLe
      (((db.playlist_tracks.filter (fun r => r.track_id == tid)).foldl
          (fun m rel => upsertAppend m rel.playlist_id rel.position) []
        ).filterMap (fun kv => (db.get_playlist kv.1).map
          (fun pl => TrackPlaylistEntry.pl pl (kv.2.insertionSort (· ≤ ·))))
        ++ (if db.saved_tracks.any (fun s => s.track_id == tid)
            then [TrackPlaylistEntry.likedSongs] else []))).filterMap entryId
    rw [hperm.nodup_iff]
    rw [List.filterMap_append]
    have hliked : ((if db.saved_tracks.any (fun s => s.track_id == tid)
        then [TrackPlaylistEntry.likedSongs] else []).filterMap entryId) = [] := by
      split <;> simp [entryId]
    rw [hliked, List.append_nil, List.filterMap_filterMap]
    have hh : ∀ kv : String × List Nat,
        ((db.get_playlist kv.1).map (fun pl =>
          TrackPlaylistEntry.pl pl (kv.2.insertionSort (· ≤ ·)))).bind entryId
          = none ∨
        ((db.get_playlist kv.1).map (fun pl =>
          TrackPlaylistEntry.pl pl (kv.2.insertionSort (· ≤ ·)))).bind entryId
          = some kv.1 := by
      intro kv
      cases hg : db.get_playlist kv.1 with
      | none => left; rfl
      | some pl =>
        right
        have hid : pl.id = kv.1 := by simpa using List.find?_some hg
        simp [entryId, hid]
    exact (groupPositions_keys_nodup _).sublist
      (filterMap_sublist_map _ Prod.fst hh _)
  · rintro pid ⟨r, hr, hrt, hrp⟩ hsome
    obtain ⟨pl, hg⟩ := Option.isSome_iff_exists.mp hsome
    rw [get_playlists_for_track_eq]
    have hrrels : r ∈ db.playlist_tracks.filter (fun x => x.track_id == tid) :=
      List.mem_filter.mpr ⟨hr, by simp [hrt]⟩
    have hfne : (db.playlist_tracks.filter
        (fun x => x.track_id == tid)).filter
          (fun x => x.playlist_id == pid) ≠ [] := by
      intro he
      have hmem : r ∈ (db.playlist_tracks.filter
          (fun x => x.track_id == tid)).filter
            (fun x => x.playlist_id == pid) :=
        List.mem_filter.mpr ⟨hrrels, by simp [hrp]⟩
      rw [he] at hmem
      simp at hmem
    have hlk := groupPositions_lookup
      (db.playlist_tracks.filter (fun x => x.track_id == tid)) pid
    rw [if_neg hfne] at hlk
    have hmem := mem_of_lookupKey _ _ _ hlk
    refine ⟨pl, ((((db.playlist_tracks.filter
        (fun x => x.track_id == tid)).filter
          (fun x => x.playlist_id == pid)).map
            (fun x => x.position)).insertionSort (· ≤ ·)), ?_, ?_⟩
    · rw [List.mem_insertionSort, List.mem_append]
      left
      apply List.mem_filterMap.mpr
      refine ⟨(pid, ((db.playlist_tracks.filter
          (fun x => x.track_id == tid)).filter
            (fun x => x.playlist_id == pid)).map (fun x => x.position)),
        hmem, ?_⟩
      rw [hg]
      rfl
    · simpa using List.find?_some hg

def dbC7 : SpotifyDatabase :=
  { tracks := [], playlists := [samplePlaylist "p1" "Zeta" none 2],
    playlist_tracks := [⟨"p1", "t1", 3⟩, ⟨"p1", "t1", 1⟩],
    saved_tracks := [⟨"t1", "2020-01-01"⟩] }

/-- Witness for C7: a track sitting twice in one stored playlist yields an
entry for that playlist. -/
theorem get_playlists_for_track_spec_witness :
    (∃ r ∈ dbC7.playlist_tracks, r.track_id = "t1" ∧ r.playlist_id = "p1") ∧
      (dbC7.get_playlist "p1").isSome ∧
      ∃ p ps, TrackPlaylistEntry.pl p ps ∈ dbC7.get_playlists_for_track "t1" ∧
        p.id = "p1" :=
  ⟨by decide, by decide,
    (get_playlists_for_track_spec dbC7 "t1").2.2.2.2 "p1" (by decide)
      (by decide)⟩

/-! ### Sync-step trace machinery (claims C1, C2) -/

/-- Whether an action is the snapshot-marker write. -/
def isWriteSnapshot : SyncAction → Bool
  | .writeSnapshot _ _ => true
  | _ => false

/-- Whether an action is a remote track-membership fetch. -/
def isFetchAction : SyncAction → Bool
  | .fetchTracks _ => true
  | _ => false

/-- The snapshot marker currently stored for a playlist id (`none` when the
playlist is absent or its document has no `snapshot_id` key). -/
def snapshotView (db : SpotifyDatabase) (pid : String) : Option String :=
  (db.get_playlist pid).bind (fun p => p.snapshot_id)

theorem insert_track_playlists (db : SpotifyDatabase) (t : Track) :
    (db.insert_track t).playlists = db.playlists := by
  unfold SpotifyDatabase.insert_track
  split <;> rfl

theorem insert_track_rels (db : SpotifyDatabase) (t : Track) :
    (db.insert_track t).playlist_tracks = db.playlist_tracks := by
  unfold SpotifyDatabase.insert_track
  split <;> rfl

theorem add_track_playlists (db : SpotifyDatabase) (pid tid : String)
    (pos : Nat) :
    (db.add_track_to_playlist pid tid pos).playlists = db.playlists := by
  unfold SpotifyDatabase.add_track_to_playlist
  split <;> rfl

theorem insert_playlist_rels (db : SpotifyDatabase) (p : Playlist) :
    (db.insert_playlist p).playlist_tracks = db.playlist_tracks := by
  unfold SpotifyDatabase.insert_playlist
  split <;> rfl

theorem snapshotView_insert_stripped (db : SpotifyDatabase) (p : Playlist)
    (pid : String) (hp : p.snapshot_id = none) :
    snapshotView (db.insert_playlist p) pid = snapshotView db pid := by
  unfold snapshotView SpotifyDatabase.insert_playlist SpotifyDatabase.get_playlist
  cases hany : db.playlists.any (fun x => x.id == p.id) with
  | true =>
    simp only [if_true]
    have hf : ∀ x : Playlist,
        ((if x.id == p.id then mergePlaylistDoc x p else x).id == pid)
          = (x.id == pid) := by
      intro x
      by_cases hb : (x.id == p.id) = true
      · have hxp : x.id = p.id := by simpa using hb
        have hm : (mergePlaylistDoc x p).id = p.id := rfl
        rw [if_pos hb, hm, hxp]
      · rw [if_neg hb]
    rw [find?_map_stable _ _ hf]
    cases hy : db.playlists.find? (fun x => x.id == pid) with
    | none => simp
    | some y =>
      simp only [Option.map_some', Option.some_bind]
      by_cases hb : (y.id == p.id) = true
      · rw [if_pos hb]
        simp [mergePlaylistDoc, hp]
      · rw [if_neg hb]
  | false =>
    simp only [Bool.false_eq_true, if_false]
    rw [List.find?_append]
    cases hy : db.playlists.find? (fun x => x.id == pid) with
    | some y => simp [Option.or]
    | none =>
      simp only [Option.none_or]
      cases hpp : (p.id == pid) with
      | true => simp [List.find?_cons, hpp, hp]
      | false => simp [List.find?_cons, hpp]

theorem snapshotView_foldl (acts : List SyncAction) :
    ∀ (db : SpotifyDatabase) (pid : String),
      (∀ a ∈ acts, isWriteSnapshot a = false ∧
        ∀ p, a = SyncAction.upsertPlaylist p → p.snapshot_id = none) →
      snapshotView (acts.foldl applyAction db) pid = snapshotView db pid := by
  induction acts with
  | nil => intro db pid _; rfl
  | cons a rest ih =>
    intro db pid h
    obtain ⟨hws, hup⟩ := h a (List.mem_cons_self _ _)
    have hrest : ∀ b ∈ rest, isWriteSnapshot b = false ∧
        ∀ p, b = SyncAction.upsertPlaylist p → p.snapshot_id = none :=
      fun b hb => h b (List.mem_cons_of_mem _ hb)
    rw [List.foldl_cons, ih _ pid hrest]
    cases a with
    | upsertPlaylist p =>
      exact snapshotView_insert_stripped db p pid (hup p rfl)
    | fetchTracks q => rfl
    | clearRels q => rfl
    | saveTrack q t pos =>
      show snapshotView ((db.insert_track t).add_track_to_playlist q t.id pos)
        pid = snapshotView db pid
      unfold snapshotView SpotifyDatabase.get_playlist
      rw [add_track_playlists, insert_track_playlists]
    | writeSnapshot q s => exact absurd hws (by simp [isWriteSnapshot])

theorem foldl_saveTrack (pid : String) (tps : List (Track × Nat)) :
    ∀ db : SpotifyDatabase,
      (tps.map (fun tp => SyncAction.saveTrack pid tp.1 tp.2)).foldl
          applyAction db
        = savePlaylistTracks db pid tps := by
  induction tps with
  | nil => intro db; rfl
  | cons tp rest ih =>
    intro db
    simp only [List.map_cons, List.foldl_cons]
    exact ih _

theorem sync_diff_step_skip (db : SpotifyDatabase) (pl : RemotePlaylist)
    (pages : List (List PlaylistItem)) (hs : diffSkip db pl = true) :
    sync_diff_step db pl pages = (db, []) := by
  simp [sync_diff_step, hs]

theorem sync_diff_step_trace (db : SpotifyDatabase) (pl : RemotePlaylist)
    (pages : List (List PlaylistItem)) (hs : diffSkip db pl = false) :
    (sync_diff_step db pl pages).2
      = SyncAction.upsertPlaylist (stripSnapshot pl)
          :: ((if 0 < pl.tracks_total then
                SyncAction.fetchTracks pl.id :: SyncAction.clearRels pl.id ::
                  (SpotifyClient.get_playlist_tracks pages).map
                    (fun tp => SyncAction.saveTrack pl.id tp.1 tp.2)
              else [])
            ++ (if !(pl.snapshot_id == "") then
                  [SyncAction.writeSnapshot pl.id pl.snapshot_id] else [])) := by
  by_cases h2 : 0 < pl.tracks_total <;>
    cases h3 : pl.snapshot_id == "" <;>
      simp [sync_diff_step, hs, h2, h3]

theorem sync_full_step_trace (db : SpotifyDatabase) (pl : RemotePlaylist)
    (pages : List (List PlaylistItem)) :
    (sync_full_step db pl pages).2
      = SyncAction.upsertPlaylist (stripSnapshot pl)
          :: ((if 0 < pl.tracks_total then
                SyncAction.fetchTracks pl.id ::
                  (SpotifyClient.get_playlist_tracks pages).map
                    (fun tp => SyncAction.saveTrack pl.id tp.1 tp.2)
              else [])
            ++ (if !(pl.snapshot_id == "") then
                  [SyncAction.writeSnapshot pl.id pl.snapshot_id] else [])) := by
  by_cases h2 : 0 < pl.tracks_total <;>
    cases h3 : pl.snapshot_id == "" <;>
      simp [sync_full_step, h2, h3]

theorem sync_diff_step_adequate (db : SpotifyDatabase) (pl : RemotePlaylist)
    (pages : List (List PlaylistItem)) :
    (sync_diff_step db pl pages).1
      = (sync_diff_step db pl pages).2.foldl applyAction db := by
  cases hs : diffSkip db pl with
  | true => simp [sync_diff_step, hs]
  | false =>
    by_cases h2 : 0 < pl.tracks_total <;>
      cases h3 : pl.snapshot_id == "" <;>
        simp [sync_diff_step, hs, h2, h3, applyAction, List.foldl_append,
          foldl_saveTrack]

theorem sync_full_step_adequate (db : SpotifyDatabase) (pl : RemotePlaylist)
    (pages : List (List PlaylistItem)) :
    (sync_full_step db pl pages).1
      = (sync_full_step db pl pages).2.foldl applyAction db := by
  by_cases h2 : 0 < pl.tracks_total <;>
    cases h3 : pl.snapshot_id == "" <;>
      simp [sync_full_step, h2, h3, applyAction, List.foldl_append,
        foldl_saveTrack]

theorem sync_diff_trace_facts (db : SpotifyDatabase) (pl : RemotePlaylist)
    (pages : List (List PlaylistItem)) :
    ∃ body tail, (sync_diff_step db pl pages).2 = body ++ tail ∧
      (∀ a ∈ body, isWriteSnapshot a = false) ∧
      (∀ p, SyncAction.upsertPlaylist p ∈ body → p.snapshot_id = none) ∧
      (body = [] ∨ ∃ rest,
        body = SyncAction.upsertPlaylist (stripSnapshot pl) :: rest) ∧
      (tail = [] ∨ tail = [SyncAction.writeSnapshot pl.id pl.snapshot_id]) := by
  cases hs : diffSkip db pl with
  | true =>
    exact ⟨[], [], by simp [sync_diff_step_skip db pl pages hs], by simp,
      by simp, Or.inl rfl, Or.inl rfl⟩
  | false =>
    refine ⟨SyncAction.upsertPlaylist (stripSnapshot pl)
        :: (if 0 < pl.tracks_total then
              SyncAction.fetchTracks pl.id :: SyncAction.clearRels pl.id ::
                (SpotifyClient.get_playlist_tracks pages).map
                  (fun tp => SyncAction.saveTrack pl.id tp.1 tp.2)
            else []),
      (if !(pl.snapshot_id == "") then
        [SyncAction.writeSnapshot pl.id pl.snapshot_id] else []),
      ?_, ?_, ?_, Or.inr ⟨_, rfl⟩, ?_⟩
    · rw [sync_diff_step_trace db pl pages hs]
      simp
    · intro a ha
      rcases List.mem_cons.mp ha with rfl | ha
      · rfl
      · split at ha
        · rcases List.mem_cons.mp ha with rfl | ha
          · rfl
          · rcases List.mem_cons.mp ha with rfl | ha
            · rfl
            · obtain ⟨tp, -, rfl⟩ := List.mem_map.mp ha
              rfl
        · simp at ha
    · intro p hp
      rcases List.mem_cons.mp hp with heq | hp
      · injection heq with h
        rw [h]
        rfl
      · split at hp
        · rcases List.mem_cons.mp hp with heq | hp
          · exact absurd heq (by simp)
          · rcases List.mem_cons.mp hp with heq | hp
            · exact absurd heq (by simp)
            · obtain ⟨tp, -, heq⟩ := List.mem_map.mp hp
              exact absurd heq (by simp)
        · simp at hp
    · split
      · exact Or.inr rfl
      · exact Or.inl rfl

theorem sync_full_trace_facts (db : SpotifyDatabase) (pl : RemotePlaylist)
    (pages : List (List PlaylistItem)) :
    ∃ body tail, (sync_full_step db pl pages).2 = body ++ tail ∧
      (∀ a ∈ body, isWriteSnapshot a = false) ∧
      (∀ p, SyncAction.upsertPlaylist p ∈ body → p.snapshot_id = none) ∧
      (body = [] ∨ ∃ rest,
        body = SyncAction.upsertPlaylist (stripSnapshot pl) :: rest) ∧
      (tail = [] ∨ tail = [SyncAction.writeSnapshot pl.id pl.snapshot_id]) := by
  refine ⟨SyncAction.upsertPlaylist (stripSnapshot pl)
      :: (if 0 < pl.tracks_total then
            SyncAction.fetchTracks pl.id ::
              (SpotifyClient.get_playlist_tracks pages).map
                (fun tp => SyncAction.saveTrack pl.id tp.1 tp.2)
          else []),
    (if !(pl.snapshot_id == "") then
      [SyncAction.writeSnapshot pl.id pl.snapshot_id] else []),
    ?_, ?_, ?_, Or.inr ⟨_, rfl⟩, ?_⟩
  · rw [sync_full_step_trace db pl pages]
    simp
  · intro a ha
    rcases List.mem_cons.mp ha with rfl | ha
    · rfl
    · split at ha
      · rcases List.mem_cons.mp ha with rfl | ha
        · rfl
        · obtain ⟨tp, -, rfl⟩ := List.mem_map.mp ha
          rfl
      · simp at ha
  · intro p hp
    rcases List.mem_cons.mp hp with heq | hp
    · injection heq with h
      rw [h]
      rfl
    · split at hp
      · rcases List.mem_cons.mp hp with heq | hp
        · exact absurd heq (by simp)
        · obtain ⟨tp, -, heq⟩ := List.mem_map.mp hp
          exact absurd heq (by simp)
      · simp at hp
  · split
    · exact Or.inr rfl
    · exact Or.inl rfl

theorem trace_facts_consequences (T : List SyncAction) (pl : RemotePlaylist)
    (h : ∃ body tail, T = body ++ tail ∧
      (∀ a ∈ body, isWriteSnapshot a = false) ∧
      (∀ p, SyncAction.upsertPlaylist p ∈ body → p.snapshot_id = none) ∧
      (body = [] ∨ ∃ rest,
        body = SyncAction.upsertPlaylist (stripSnapshot pl) :: rest) ∧
      (tail = [] ∨ tail = [SyncAction.writeSnapshot pl.id pl.snapshot_id])) :
    (∀ a ∈ T.dropLast, isWriteSnapshot a = false) ∧
    (∀ q s, SyncAction.writeSnapshot q s ∈ T →
      q = pl.id ∧ s = pl.snapshot_id) ∧
    (∀ p, SyncAction.upsertPlaylist p ∈ T → p.snapshot_id = none) := by
  obtain ⟨body, tail, rfl, hbody, hup, -, htail⟩ := h
  refine ⟨?_, ?_, ?_⟩
  · rcases htail with rfl | rfl
    · intro a ha
      rw [List.append_nil] at ha
      exact hbody a ((List.dropLast_sublist _).subset ha)
    · intro a ha
      rw [List.dropLast_concat] at ha
      exact hbody a ha
  · intro q s hq
    rcases List.mem_append.mp hq with h1 | h1
    · exact absurd (hbody _ h1) (by simp [isWriteSnapshot])
    · rcases htail with rfl | rfl
      · simp at h1
      · have heq := List.mem_singleton.mp h1
        injection heq with h1 h2
        exact ⟨h1, h2⟩
  · intro p hp
    rcases List.mem_append.mp hp with h1 | h1
    · exact hup p h1
    · rcases htail with rfl | rfl
      · simp at h1
      · exact absurd (List.mem_singleton.mp h1) (by simp)

theorem set_snapshot_rels (db : SpotifyDatabase) (pid s : String) :
    (db.set_playlist_snapshot pid s).playlist_tracks = db.playlist_tracks := rfl

/-- C2: in both the full-sync and differential-sync per-playlist bodies, the
trace faithfully reproduces the database effect; any snapshot-marker write is
the very last action and writes that playlist's own remote marker; every
playlist-metadata upsert carries no snapshot marker; and executing any
snapshot-write-free prefix of the trace (a run that fails before the marker
write) leaves the stored snapshot marker for that playlist unchanged, so a
re-run of differential sync still sees the old marker. -/
theorem snapshot_marker_last_write (db : SpotifyDatabase) (pl : RemotePlaylist)
    (pages : List (List PlaylistItem)) :
    ((sync_diff_step db pl pages).1
        = (sync_diff_step db pl pages).2.foldl applyAction db) ∧
    ((sync_full_step db pl pages).1
        = (sync_full_step db pl pages).2.foldl applyAction db) ∧
    (∀ a ∈ (sync_diff_step db pl pages).2.dropLast,
      isWriteSnapshot a = false) ∧
    (∀ a ∈ (sync_full_step db pl pages).2.dropLast,
      isWriteSnapshot a = false) ∧
    (∀ q s, SyncAction.writeSnapshot q s ∈ (sync_diff_step db pl pages).2 →
      q = pl.id ∧ s = pl.snapshot_id) ∧
    (∀ q s, SyncAction.writeSnapshot q s ∈ (sync_full_step db pl pages).2 →
      q = pl.id ∧ s = pl.snapshot_id) ∧
    (∀ p, SyncAction.upsertPlaylist p ∈ (sync_diff_step db pl pages).2 →
      p.snapshot_id = none) ∧
    (∀ p, SyncAction.upsertPlaylist p ∈ (sync_full_step db pl pages).2 →
      p.snapshot_id = none) ∧
    (∀ pre suf, pre ++ suf = (sync_diff_step db pl pages).2 →
      (∀ a ∈ pre, isWriteSnapshot a = false) →
      snapshotView (pre.foldl applyAction db) pl.id = snapshotView db pl.id) ∧
    (∀ pre suf, pre ++ suf = (sync_full_step db pl pages).2 →
      (∀ a ∈ pre, isWriteSnapshot a = false) →
      snapshotView (pre.foldl applyAction db) pl.id = snapshotView db pl.id) := by
  have hd := trace_facts_consequences _ pl (sync_diff_trace_facts db pl pages)
  have hf := trace_facts_consequences _ pl (sync_full_trace_facts db pl pages)
  refine ⟨sync_diff_step_adequate db pl pages,
    sync_full_step_adequate db pl pages,
    hd.1, hf.1, hd.2.1, hf.2.1, hd.2.2, hf.2.2, ?_, ?_⟩
  · intro pre suf heq hpre
    apply snapshotView_foldl
    intro a ha
    have haT : a ∈ (sync_diff_step db pl pages).2 :=
      heq ▸ List.mem_append.mpr (Or.inl ha)
    exact ⟨hpre a ha, fun p hp => hd.2.2 p (hp ▸ haT)⟩
  · intro pre suf heq hpre
    apply snapshotView_foldl
    intro a ha
    have haT : a ∈ (sync_full_step db pl pages).2 :=
      heq ▸ List.mem_append.mpr (Or.inl ha)
    exact ⟨hpre a ha, fun p hp => hf.2.2 p (hp ▸ haT)⟩

def c2DB : SpotifyDatabase :=
  { tracks := [], playlists := [samplePlaylist "p1" "P" (some "S1") 1],
    playlist_tracks := [⟨"p1", "t1", 0⟩], saved_tracks := [] }

def c2Remote : RemotePlaylist :=
  { id := "p1", name := "P", description := "d", owner := "o", public := true,
    collaborative := false, tracks_total := 1, snapshot_id := "S2",
    uri := "u", external_url := "e" }

def pages1 : List (List PlaylistItem) :=
  [[⟨some false, some (rawItemTrack "t1" "N1")⟩]]

def extractedT1 : Track :=
  { id := "t1", name := "N1", artist := "A", album := "Al",
    duration_ms := 100, popularity := 5, explicit := false, uri := "u",
    external_url := "e", preview_url := "pv", release_date := "2020",
    is_local := false }

/-- Witness for C2 at a concrete stale playlist: the run that stops right
after the metadata upsert (before the marker write) leaves the old snapshot
marker "S1" in place. -/
theorem snapshot_marker_last_write_witness :
    ([SyncAction.upsertPlaylist (stripSnapshot c2Remote)]
        ++ [SyncAction.fetchTracks "p1", SyncAction.clearRels "p1",
            SyncAction.saveTrack "p1" extractedT1 0,
            SyncAction.writeSnapshot "p1" "S2"]
      = (sync_diff_step c2DB c2Remote pages1).2) ∧
    (∀ a ∈ [SyncAction.upsertPlaylist (stripSnapshot c2Remote)],
      isWriteSnapshot a = false) ∧
    snapshotView
        ([SyncAction.upsertPlaylist (stripSnapshot c2Remote)].foldl
          applyAction c2DB) "p1"
      = snapshotView c2DB "p1" :=
  ⟨by decide, by decide,
    (snapshot_marker_last_write c2DB c2Remote pages1).2.2.2.2.2.2.2.2.1
      [SyncAction.upsertPlaylist (stripSnapshot c2Remote)]
      [SyncAction.fetchTracks "p1", SyncAction.clearRels "p1",
        SyncAction.saveTrack "p1" extractedT1 0,
        SyncAction.writeSnapshot "p1" "S2"]
      (by decide) (by decide)⟩

theorem savePlaylistTracks_cons (db : SpotifyDatabase) (pid : String)
    (tp : Track × Nat) (rest : List (Track × Nat)) :
    savePlaylistTracks db pid (tp :: rest)
      = savePlaylistTracks
          ((db.insert_track tp.1).add_track_to_playlist pid tp.1.id tp.2)
          pid rest := rfl

theorem savePlaylistTracks_rels :
    ∀ (tps : List (Track × Nat)) (db : SpotifyDatabase) (pid : String),
      (∀ r ∈ db.playlist_tracks, ∀ tp ∈ tps,
        ¬(r.playlist_id = pid ∧ r.track_id = tp.1.id ∧ r.position = tp.2)) →
      (tps.map Prod.snd).Pairwise (· < ·) →
      (savePlaylistTracks db pid tps).playlist_tracks
        = db.playlist_tracks
            ++ tps.map (fun tp => (⟨pid, tp.1.id, tp.2⟩ : PlaylistTrackRow)) := by
  intro tps
  induction tps with
  | nil => intro db pid _ _; simp [savePlaylistTracks]
  | cons tp rest ih =>
    intro db pid hno hpw
    rw [List.map_cons, List.pairwise_cons] at hpw
    have hfind : (db.insert_track tp.1).playlist_tracks.find? (fun r =>
        r.playlist_id == pid && r.track_id == tp.1.id &&
          r.position == tp.2) = none := by
      rw [insert_track_rels, List.find?_eq_none]
      intro r hr hpred
      have hreq := (relPred_iff r pid tp.1.id tp.2).mp hpred
      apply hno r hr tp (List.mem_cons_self _ _)
      rw [hreq]
      exact ⟨rfl, rfl, rfl⟩
    have hdb' : ((db.insert_track tp.1).add_track_to_playlist
        pid tp.1.id tp.2).playlist_tracks
        = db.playlist_tracks ++ [⟨pid, tp.1.id, tp.2⟩] := by
      unfold SpotifyDatabase.add_track_to_playlist
      rw [hfind]
      simp [insert_track_rels]
    rw [savePlaylistTracks_cons, ih _ pid ?_ hpw.2, hdb']
    · simp
    · intro r hr tp' htp'
      rw [hdb'] at hr
      rcases List.mem_append.mp hr with h1 | h1
      · exact hno r h1 tp' (List.mem_cons_of_mem _ htp')
      · have hrr := List.mem_singleton.mp h1
        rintro ⟨-, -, hpos⟩
        have hlt : tp.2 < tp'.2 :=
          hpw.1 tp'.2 (List.mem_map.mpr ⟨tp', htp', rfl⟩)
        rw [hrr] at hpos
        simp only at hpos
        omega

/-- C1 (amended): per remote playlist, differential sync skips when a local
copy exists and both sides carry equal non-empty (truthy) snapshot markers,
and also skips — when the marker comparison is unavailable — if a local copy
exists and the local relationship count equals the remote total; in every
remaining case the playlist metadata is upserted and, *when the remote total
track count is positive*, exactly one membership fetch occurs and the
playlist's relationships are replaced wholesale by the fetched ones; when the
remote total is zero no fetch occurs and the existing relationship rows are
left untouched (the snapshot marker being written afterwards either way, if
the remote carries one). -/
theorem sync_diff_step_spec (db : SpotifyDatabase) (pl : RemotePlaylist)
    (pages : List (List PlaylistItem)) :
    (∀ lp, db.get_playlist pl.id = some lp →
      optTruthy lp.snapshot_id = true → pl.snapshot_id ≠ "" →
      lp.snapshot_id = some pl.snapshot_id →
      sync_diff_step db pl pages = (db, [])) ∧
    (∀ lp, db.get_playlist pl.id = some lp →
      (optTruthy lp.snapshot_id = false ∨ pl.snapshot_id = "") →
      db.get_playlist_track_count pl.id = pl.tracks_total →
      sync_diff_step db pl pages = (db, [])) ∧
    (diffSkip db pl = false → 0 < pl.tracks_total →
      (sync_diff_step db pl pages).2.countP isFetchAction = 1 ∧
      (sync_diff_step db pl pages).1.playlist_tracks
        = db.playlist_tracks.filter (fun r => !(r.playlist_id == pl.id))
          ++ (SpotifyClient.get_playlist_tracks pages).map
              (fun tp => (⟨pl.id, tp.1.id, tp.2⟩ : PlaylistTrackRow))) ∧
    (diffSkip db pl = false → pl.tracks_total = 0 →
      (sync_diff_step db pl pages).2.countP isFetchAction = 0 ∧
      (sync_diff_step db pl pages).1.playlist_tracks = db.playlist_tracks) := by
  refine ⟨?_, ?_, ?_, ?_⟩
  · intro lp hlp htr hsnap heq
    apply sync_diff_step_skip
    simp [diffSkip, hlp, htr, hsnap, heq]
    left
    simp [optTruthy, hsnap]
  · intro lp hlp hfall hcount
    apply sync_diff_step_skip
    rcases hfall with h | h <;> simp [diffSkip, hlp, h, hcount]
  · intro hs h2
    constructor
    · have hmap : ((SpotifyClient.get_playlist_tracks pages).map
          (fun tp => SyncAction.saveTrack pl.id tp.1 tp.2)).countP
            isFetchAction = 0 := by
        rw [List.countP_eq_zero]
        intro a ha
        obtain ⟨tp, -, rfl⟩ := List.mem_map.mp ha
        simp [isFetchAction]
      have htail : (if !(pl.snapshot_id == "") then
          [SyncAction.writeSnapshot pl.id pl.snapshot_id]
          else []).countP isFetchAction = 0 := by
        split <;> rfl
      rw [sync_diff_step_trace db pl pages hs, if_pos h2]
      simp [List.countP_cons, List.countP_append, hmap, htail,
        isFetchAction]
    · have hrels : ∀ r ∈ ((db.insert_playlist
          (stripSnapshot pl)).clear_playlist_tracks pl.id).playlist_tracks,
          ∀ tp ∈ SpotifyClient.get_playlist_tracks pages,
          ¬(r.playlist_id = pl.id ∧ r.track_id = tp.1.id ∧
            r.position = tp.2) := by
        intro r hr tp _
        rintro ⟨hpid, -, -⟩
        unfold SpotifyDatabase.clear_playlist_tracks at hr
        rw [insert_playlist_rels] at hr
        simp only [List.mem_filter] at hr
        rw [hpid] at hr
        simp at hr
      have hsave := savePlaylistTracks_rels
        (SpotifyClient.get_playlist_tracks pages)
        ((db.insert_playlist (stripSnapshot pl)).clear_playlist_tracks pl.id)
        pl.id hrels (fetchTrackPages_pairwise pages 0)
      have hclean : ((db.insert_playlist
          (stripSnapshot pl)).clear_playlist_tracks pl.id).playlist_tracks
          = db.playlist_tracks.filter (fun r => !(r.playlist_id == pl.id)) := by
        unfold SpotifyDatabase.clear_playlist_tracks
        rw [insert_playlist_rels]
      cases h3 : pl.snapshot_id == "" with
      | true =>
        simp only [sync_diff_step, hs, Bool.false_eq_true, if_false, h3,
          Bool.not_true]
        rw [if_pos h2]
        simp only [Bool.false_eq_true, if_false]
        rw [hsave, hclean]
      | false =>
        simp only [sync_diff_step, hs, Bool.false_eq_true, if_false, h3,
          Bool.not_false]
        rw [if_pos h2]
        simp only [if_true]
        rw [set_snapshot_rels, hsave, hclean]
  · intro hs h2
    have h2' : ¬(0 < pl.tracks_total) := by omega
    constructor
    · rw [sync_diff_step_trace db pl pages hs, if_neg h2']
      have htail : (if !(pl.snapshot_id == "") then
          [SyncAction.writeSnapshot pl.id pl.snapshot_id]
          else []).countP isFetchAction = 0 := by
        split <;> rfl
      simp [List.countP_cons, htail, isFetchAction]
    · cases h3 : pl.snapshot_id == "" with
      | true =>
        simp only [sync_diff_step, hs, Bool.false_eq_true, if_false, h3,
          Bool.not_true]
        rw [if_neg h2']
        simp only [Bool.false_eq_true, if_false]
        rw [insert_playlist_rels]
      | false =>
        simp only [sync_diff_step, hs, Bool.false_eq_true, if_false, h3,
          Bool.not_false]
        rw [if_neg h2']
        simp only [if_true]
        rw [set_snapshot_rels, insert_playlist_rels]

def c1RemoteZero : RemotePlaylist :=
  { id := "p1", name := "P", description := "d", owner := "o", public := true,
    collaborative := false, tracks_total := 0, snapshot_id := "S2",
    uri := "u", external_url := "e" }

/-- Counterexample to C1 as stated: the local copy holds snapshot "S1" and one
relationship row, the remote reports the different non-empty snapshot "S2"
but a total of 0 tracks — the playlist is not skipped, yet zero membership
fetches occur and the stale relationship row is left in place, instead of the
claimed "exactly one full membership fetch ... existing relationships are
cleared". -/
theorem sync_diff_zero_total_counterexample :
    diffSkip c2DB c1RemoteZero = false ∧
      (sync_diff_step c2DB c1RemoteZero []).2.countP isFetchAction = 0 ∧
      ((⟨"p1", "t1", 0⟩ : PlaylistTrackRow)
        ∈ (sync_diff_step c2DB c1RemoteZero []).1.playlist_tracks) := by
  refine ⟨by decide, by decide, by decide⟩

/-- Witness for the amended C1: a stale playlist with a positive remote total
is fetched exactly once and its relationships are wholesale-replaced. -/
theorem sync_diff_step_spec_witness :
    (diffSkip c2DB c2Remote = false) ∧ (0 < c2Remote.tracks_total) ∧
      (sync_diff_step c2DB c2Remote pages1).2.countP isFetchAction = 1 ∧
      (sync_diff_step c2DB c2Remote pages1).1.playlist_tracks
        = c2DB.playlist_tracks.filter
            (fun r => !(r.playlist_id == c2Remote.id))
          ++ (SpotifyClient.get_playlist_tracks pages1).map
              (fun tp => (⟨c2Remote.id, tp.1.id, tp.2⟩ : PlaylistTrackRow)) :=
  ⟨by decide, by decide,
    ((sync_diff_step_spec c2DB c2Remote pages1).2.2.1
      (by decide) (by decide)).1,
    ((sync_diff_step_spec c2DB c2Remote pages1).2.2.1
      (by decide) (by decide)).2⟩
